import Mathlib

/-!
# Verification of the identity-reconciliation service

A shallow embedding of the contact-reconciliation backend: a PostgreSQL-backed
`Contact` table accessed through a small query layer (`findContacts`, `findById`,
`findByLinkedId`, `queryAllLinkedContacts`, `createContact`, `updateContacts`,
`transaction`) and the core `identify` routine that loads matching contacts,
merges primary groups (oldest primary survives), decides whether a new
secondary record is needed, and assembles the externally visible response.

Modelling conventions:
* The database is a `Store`: the list of rows in insertion order, the next
  SERIAL id, and a logical clock supplying `createdAt` timestamps (the clock
  advances at each insert, so rows created later carry later-or-equal
  timestamps; rows already present may carry arbitrary, possibly equal,
  timestamps).
* SQL `ORDER BY "createdAt" ASC` is modelled as a stable merge sort by
  `createdAt` over the row list; ties keep insertion order.
* `email`/`phoneNumber` request fields are `Option String` (absent = JS
  `undefined`/`null`); request strings are assumed non-empty, so JS truthiness
  coincides with presence.
* JavaScript `Set`/`Map` insertion-order semantics are modelled exactly
  (first-key order, last-value wins for `Map`).
* Machine timestamps and ids are `Nat`.
-/

inductive LinkPrecedence where
  | primary
  | secondary
deriving DecidableEq, Repr

/-- A row of the `Contact` table (schema.sql). -/
structure Contact where
  id : Nat
  phoneNumber : Option String
  email : Option String
  linkedId : Option Nat
  linkPrecedence : LinkPrecedence
  createdAt : Nat
  deletedAt : Option Nat
deriving DecidableEq, Repr

/-- The database state: rows in insertion order, next SERIAL id, logical clock. -/
structure Store where
  contacts : List Contact
  nextId : Nat
  now : Nat
deriving DecidableEq, Repr

/-- `"deletedAt" IS NULL`. -/
def isLive (c : Contact) : Bool := c.deletedAt.isNone

/-- The WHERE clause of `findContacts`: `email = $e OR "phoneNumber" = $p`,
with a condition omitted when the corresponding request field is absent
(and `WHERE 1=0` when both are absent). -/
def matchesIdentifiers (email phoneNumber : Option String) (c : Contact) : Bool :=
  (match email with
   | some e => c.email == some e
   | none => false)
  ||
  (match phoneNumber with
   | some p => c.phoneNumber == some p
   | none => false)

/-- `ORDER BY "createdAt" ASC` as a stable sort of the row list. -/
def sortByCreatedAt (l : List Contact) : List Contact :=
  l.mergeSort (fun a b => decide (a.createdAt ≤ b.createdAt))

/-- `PostgresDBClient.findContacts`. -/
def findContacts (s : Store) (email phoneNumber : Option String) : List Contact :=
  sortByCreatedAt (s.contacts.filter (fun c => matchesIdentifiers email phoneNumber c && isLive c))

/-- `PostgresDBClient.findById` (`WHERE id = $1 AND "deletedAt" IS NULL`, first row). -/
def findById (s : Store) (i : Nat) : Option Contact :=
  (s.contacts.filter (fun c => c.id == i && isLive c)).head?

/-- `PostgresDBClient.findByLinkedId` (`WHERE "linkedId" = $1 AND "deletedAt" IS NULL`). -/
def findByLinkedId (s : Store) (i : Nat) : List Contact :=
  s.contacts.filter (fun c => c.linkedId == some i && isLive c)

/-- `PostgresDBClient.queryAllLinkedContacts`
(`WHERE (id = $1 OR "linkedId" = $1) AND "deletedAt" IS NULL ORDER BY "createdAt" ASC`). -/
def queryAllLinkedContacts (s : Store) (primaryId : Nat) : List Contact :=
  sortByCreatedAt (s.contacts.filter (fun c => (c.id == primaryId || c.linkedId == some primaryId) && isLive c))

/-- The data handed to `PostgresDBClient.createContact`. -/
structure NewContactData where
  email : Option String
  phoneNumber : Option String
  linkedId : Option Nat
  linkPrecedence : LinkPrecedence
deriving DecidableEq, Repr

/-- `PostgresDBClient.createContact`: INSERT assigning the SERIAL id and
`CURRENT_TIMESTAMP`, returning the created row. -/
def createContact (s : Store) (d : NewContactData) : Store × Contact :=
  let c : Contact :=
    { id := s.nextId
      phoneNumber := d.phoneNumber
      email := d.email
      linkedId := d.linkedId
      linkPrecedence := d.linkPrecedence
      createdAt := s.now
      deletedAt := none }
  ({ contacts := s.contacts ++ [c], nextId := s.nextId + 1, now := s.now + 1 }, c)

/-- The partial-update payload of `PostgresDBClient.updateContacts`
(only `linkPrecedence` and `linkedId` are ever set by the service). -/
structure ContactUpdate where
  linkPrecedence : Option LinkPrecedence
  linkedId : Option Nat
deriving DecidableEq, Repr

def applyContactUpdate (u : ContactUpdate) (c : Contact) : Contact :=
  let c1 :=
    match u.linkPrecedence with
    | some lp => { c with linkPrecedence := lp }
    | none => c
  match u.linkedId with
  | some i => { c1 with linkedId := some i }
  | none => c1

/-- `PostgresDBClient.updateContacts`: `UPDATE Contact SET ... WHERE id IN (...)`. -/
def updateContacts (s : Store) (ids : List Nat) (u : ContactUpdate) : Store :=
  if ids.isEmpty then s
  else { s with contacts := s.contacts.map (fun c => if ids.contains c.id then applyContactUpdate u c else c) }

structure IdentifyRequest where
  email : Option String
  phoneNumber : Option String
deriving DecidableEq, Repr

structure IdentifyResponse where
  primaryContactId : Nat
  emails : List String
  phoneNumbers : List String
  secondaryContactIds : List Nat
deriving DecidableEq, Repr

/-- A JavaScript `Set` built by successive insertions and read back with
`Array.from`: keep the first occurrence of each value, in insertion order. -/
def jsSetDedup {α : Type} [BEq α] (l : List α) : List α :=
  l.foldl (fun acc x => if acc.contains x then acc else acc ++ [x]) []

/-- The `Set<number>` collecting `linkedId`s. -/
def dedupNat (l : List Nat) : List Nat := jsSetDedup l

/-- The `Set<string>` collecting emails / phone numbers. -/
def dedupStrings (l : List String) : List String := jsSetDedup l

/-- `new Map(contacts.map(c => [c.id, c])).values()`: key order is first
occurrence, the value for a key is the last contact seen with that id. -/
def dedupById (l : List Contact) : List Contact :=
  l.foldl
    (fun acc c =>
      if acc.any (fun d => d.id == c.id) then acc.map (fun d => if d.id == c.id then c else d)
      else acc ++ [c])
    []

/-- The loop gathering `linkedPrimaryIds` from the directly found secondaries
and resolving each through `findById`, keeping only rows that are (still)
primary (a missing or non-primary resolution is silently skipped). -/
def linkedPrimariesOf (s : Store) (secondaries : List Contact) : List Contact :=
  (dedupNat (secondaries.filterMap (fun c => c.linkedId))).filterMap (fun i =>
    match findById s i with
    | some p => if p.linkPrecedence == .primary then some p else none
    | none => none)

/-- The Identity Graph Loader step of `identify`: fetch directly matching rows,
split them into primaries and secondaries, resolve each secondary's `linkedId`,
deduplicate the union by id and sort ascending by `createdAt`. -/
def loadCandidates (s : Store) (email phoneNumber : Option String) : List Contact :=
  let existingContacts := findContacts s email phoneNumber
  let primaryContacts0 := existingContacts.filter (fun c => c.linkPrecedence == .primary)
  let secondaryContacts := existingContacts.filter (fun c => !(c.linkPrecedence == .primary))
  sortByCreatedAt (dedupById (primaryContacts0 ++ linkedPrimariesOf s secondaryContacts))

/-- The Canonical Selection & Merge Engine step: demote every candidate except
the surviving (oldest) one to secondary pointing at the survivor, then re-link
every live row whose `linkedId` pointed at a demoted candidate. -/
def mergeStore (s : Store) (ultimateId : Nat) (demotedIds : List Nat) : Store :=
  if demotedIds.isEmpty then s
  else
    let sA := updateContacts s demotedIds ⟨some .secondary, some ultimateId⟩
    let secondariesToRelink := demotedIds.flatMap (fun i => findByLinkedId sA i)
    if secondariesToRelink.isEmpty then sA
    else updateContacts sA (secondariesToRelink.map (fun c => c.id)) ⟨none, some ultimateId⟩

/-- One clause of the in-group duplicate check:
`email === undefined || email === null || email === c.email`. -/
def requestFieldMatches (v w : Option String) : Bool :=
  match v with
  | none => true
  | some x => some x == w

/-- The loop deciding `exactMatchFoundInGroup`: some single row of the group
satisfies both request fields. -/
def exactMatchInGroup (email phoneNumber : Option String) (group : List Contact) : Bool :=
  group.any (fun c => requestFieldMatches email c.email && requestFieldMatches phoneNumber c.phoneNumber)

/-- The Subordinate Decision Unit step: reload the reconciled group and create
a new secondary for the submitted pair unless a single row already covers it. -/
def decideStore (s1 : Store) (ultimateId : Nat) (email phoneNumber : Option String) : Store :=
  let group := queryAllLinkedContacts s1 ultimateId
  if !exactMatchInGroup email phoneNumber group && (email.isSome || phoneNumber.isSome) then
    (createContact s1 ⟨email, phoneNumber, some ultimateId, .secondary⟩).1
  else s1

/-- `Array.from(set).sort()` on strings (default lexicographic comparison). -/
def sortStrings (l : List String) : List String :=
  l.mergeSort (fun a b => decide (a ≤ b))

/-- The Group View Assembler step: reload the group of the surviving primary
and project it into the response shape. -/
def assembleResponse (s2 : Store) (ultimateId : Nat) : IdentifyResponse :=
  let allLinked := queryAllLinkedContacts s2 ultimateId
  { primaryContactId := ultimateId
    emails := sortStrings (dedupStrings (allLinked.filterMap (fun c => c.email)))
    phoneNumbers := sortStrings (dedupStrings (allLinked.filterMap (fun c => c.phoneNumber)))
    secondaryContactIds :=
      ((allLinked.filter (fun c => c.linkPrecedence == .secondary && c.linkedId == some ultimateId)).map
        (fun c => c.id)).mergeSort (fun a b => decide (a ≤ b)) }

/-- The body of `identify` (everything inside `db.transaction`). -/
def identifyBody (req : IdentifyRequest) (s : Store) : Store × IdentifyResponse :=
  match loadCandidates s req.email req.phoneNumber with
  | [] =>
    let created := createContact s ⟨req.email, req.phoneNumber, none, .primary⟩
    (created.1, assembleResponse created.1 created.2.id)
  | ultimate :: rest =>
    let s1 := mergeStore s ultimate.id (rest.map (fun c => c.id))
    let s2 := decideStore s1 ultimate.id req.email req.phoneNumber
    (s2, assembleResponse s2 ultimate.id)

inductive IdentifyError where
  | validation
  | internalError (msg : String)
deriving DecidableEq, Repr

/-- `PostgresDBClient.transaction`: BEGIN, run the unit of work, COMMIT its
writes on success, ROLLBACK (restoring the pre-transaction store) and re-throw
on failure. -/
def transaction {α : Type} (s : Store) (work : Store → Except IdentifyError (Store × α)) :
    Store × Except IdentifyError α :=
  match work s with
  | .ok (s2, a) => (s2, .ok a)
  | .error e => (s, .error e)

/-- The exported `identify`: validate that at least one identifier is present
(throwing before any store access), then run the reconciliation body as one
transaction. -/
def identify (req : IdentifyRequest) (s : Store) : Store × Except IdentifyError IdentifyResponse :=
  if req.email.isNone && req.phoneNumber.isNone then
    (s, .error .validation)
  else
    transaction s (fun t => .ok (identifyBody req t))

/-- The state of the store after a request (errors leave it rolled back). -/
def runIdentify (s : Store) (req : IdentifyRequest) : Store := (identify req s).1

/-- A sequence of identify operations. -/
def runAll (s : Store) (reqs : List IdentifyRequest) : Store := reqs.foldl runIdentify s

structure HttpResult where
  statusCode : Nat
  store : Store
  response : Option IdentifyResponse
deriving DecidableEq, Repr

/-- The API Gateway `handler`: 400 when the body is missing, 200 with the
result on success, 500 (with the error message) on any thrown error. -/
def handler (body : Option IdentifyRequest) (s : Store) : HttpResult :=
  match body with
  | none => ⟨400, s, none⟩
  | some req =>
    match identify req s with
    | (s2, .ok r) => ⟨200, s2, some r⟩
    | (s2, .error _) => ⟨500, s2, none⟩

/-! ### Identifier-sharing connectivity

Two live rows are neighbours when they literally share a non-absent email or a
non-absent phone number; a *group* in the sense of the data model is a
connected component of this relation. Connectivity only depends on the id,
email, phone and liveness of rows, so it is defined on that projection. -/

structure Node where
  id : Nat
  email : Option String
  phoneNumber : Option String
deriving DecidableEq, Repr

def Contact.node (c : Contact) : Node := ⟨c.id, c.email, c.phoneNumber⟩

def nodesOf (s : Store) : List Node :=
  (s.contacts.filter (fun c => isLive c)).map Contact.node

def sharesIdentifier (a b : Node) : Bool :=
  (a.email.isSome && a.email == b.email) || (a.phoneNumber.isSome && a.phoneNumber == b.phoneNumber)

def identStep (ns : List Node) (a b : Node) : Prop :=
  a ∈ ns ∧ b ∈ ns ∧ sharesIdentifier a b = true

/-- Transitive identifier-sharing connectivity among the nodes `ns`. -/
def reach (ns : List Node) : Node → Node → Prop := Relation.ReflTransGen (identStep ns)

/-! ### The data-model invariants -/

/-- The canonical id a row claims: itself for a primary, its `linkedId` for a
secondary. -/
def canonicalIdOf (c : Contact) : Option Nat :=
  match c.linkPrecedence with
  | .primary => some c.id
  | .secondary => c.linkedId

/-- The data-model invariants of the store, together with the bookkeeping facts
(distinct ids below the id counter, timestamps below the clock) that make them
inductive under `identify`:
* `primNoLink`/`flat`: invariant 2 — a live primary has no `linkedId`, a live
  secondary's `linkedId` resolves in one hop to a live primary;
* `connIff`: two live rows are identifier-connected exactly when they claim the
  same canonical id (invariant 3's grouping);
* `canonMin`: the canonical a live row claims is no younger than the row. -/
structure StoreInv (s : Store) : Prop where
  nodupIds : (s.contacts.map Contact.id).Nodup
  idLt : ∀ c ∈ s.contacts, c.id < s.nextId
  createdLt : ∀ c ∈ s.contacts, c.createdAt < s.now
  primNoLink : ∀ c ∈ s.contacts, isLive c = true → c.linkPrecedence = .primary → c.linkedId = none
  flat : ∀ c ∈ s.contacts, isLive c = true → c.linkPrecedence = .secondary →
    ∃ p ∈ s.contacts, isLive p = true ∧ c.linkedId = some p.id ∧ p.linkPrecedence = .primary
  connIff : ∀ a ∈ s.contacts, ∀ b ∈ s.contacts, isLive a = true → isLive b = true →
    (reach (nodesOf s) a.node b.node ↔ canonicalIdOf a = canonicalIdOf b)
  canonMin : ∀ c ∈ s.contacts, ∀ p ∈ s.contacts, isLive c = true → isLive p = true →
    canonicalIdOf c = some p.id → p.linkPrecedence = .primary → p.createdAt ≤ c.createdAt

/-! ### Abstract description of the merge action and claim-level properties -/

/-- The net effect of the Merge Engine on a single row (demote-then-relink),
used to characterise `mergeStore`: a row whose id is demoted becomes a
secondary of the survivor; a live row pointing at a demoted id is re-pointed
at the survivor; every other row is untouched. -/
def pointsAtDemoted (demoted : List Nat) (c : Contact) : Bool :=
  match c.linkedId with
  | some d => demoted.contains d
  | none => false

def mergeRow (uid : Nat) (demoted : List Nat) (c : Contact) : Contact :=
  if demoted.contains c.id then { c with linkPrecedence := .secondary, linkedId := some uid }
  else if isLive c && pointsAtDemoted demoted c then { c with linkedId := some uid }
  else c

/-- Invariant 3, first half: every live row reaches a unique live primary. -/
def UniqueCanonical (s : Store) : Prop :=
  ∀ a ∈ s.contacts, isLive a = true →
    ∃ pid : Nat, (∃ q ∈ s.contacts, q.id = pid ∧ isLive q = true ∧
        q.linkPrecedence = .primary ∧ reach (nodesOf s) a.node q.node) ∧
      ∀ q ∈ s.contacts, isLive q = true → q.linkPrecedence = .primary →
        reach (nodesOf s) a.node q.node → q.id = pid

/-- Invariant 3, second half (without the id tie-break): the primary of a group
has the earliest `createdAt` among the group's live rows. -/
def CanonicalOldest (s : Store) : Prop :=
  ∀ a ∈ s.contacts, ∀ q ∈ s.contacts, isLive a = true → isLive q = true →
    q.linkPrecedence = .primary → reach (nodesOf s) a.node q.node →
    q.createdAt ≤ a.createdAt

/-- Invariant 3, second half as the specification states it: earliest
`createdAt`, ties broken by lowest id. -/
def CanonicalMinTie (s : Store) : Prop :=
  ∀ a ∈ s.contacts, ∀ q ∈ s.contacts, isLive a = true → isLive q = true →
    q.linkPrecedence = .primary → reach (nodesOf s) a.node q.node →
    q.createdAt < a.createdAt ∨ (q.createdAt = a.createdAt ∧ q.id ≤ a.id)

/-- Invariant 2 as a property of a store: every live secondary points in one
hop at a live primary. -/
def FlatLinks (s : Store) : Prop :=
  ∀ c ∈ s.contacts, isLive c = true → c.linkPrecedence = .secondary →
    ∃ q ∈ s.contacts, isLive q = true ∧ c.linkedId = some q.id ∧
      q.linkPrecedence = .primary

/-- Modelled from the spec's words (§4.3), for comparison with the code's
`exactMatchInGroup`: a field counts as satisfied when absent from the request
or when *some* record of the group (not necessarily the same record for both
fields) carries that exact value; the pair is represented when both fields are
satisfied. -/
def specRepresentedPair (email phoneNumber : Option String) (group : List Contact) : Prop :=
  (email = none ∨ ∃ c ∈ group, c.email = email) ∧
    (phoneNumber = none ∨ ∃ c ∈ group, c.phoneNumber = phoneNumber)

/-- HTTP 4xx. -/
def isClientError (status : Nat) : Prop := 400 ≤ status ∧ status < 500

/-! ### Concrete stores used as counterexamples and witnesses -/

/-- An empty database (next SERIAL id 1, clock at 1). -/
def emptyStore : Store := ⟨[], 1, 1⟩

/-- Two groups whose primaries tie on `createdAt`: group `{1, 2}` (primary 1,
created at 0, linked by email "a") and group `{3}` (primary 3, created at 0).
Row 2 also carries phone "p"; row 3 carries email "b" and phone "q". -/
def mergeTieStore : Store :=
  ⟨[⟨1, none, some "a", none, .primary, 0, none⟩,
    ⟨2, some "p", some "a", some 1, .secondary, 1, none⟩,
    ⟨3, some "q", some "b", none, .primary, 0, none⟩], 4, 2⟩

/-- The request joining `mergeTieStore`'s two groups: email matches row 3,
phone matches row 2 (whose primary is row 1). -/
def mergeTieRequest : IdentifyRequest := ⟨some "b", some "p"⟩

/-- One group of three rows in which the pair (email "b", phone "1") is
covered field-wise — row 3 has the email, row 1 has the phone — but no single
row carries both. -/
def coveredPairStore : Store :=
  ⟨[⟨1, some "1", some "a", none, .primary, 0, none⟩,
    ⟨2, some "2", some "a", some 1, .secondary, 1, none⟩,
    ⟨3, some "2", some "b", some 1, .secondary, 2, none⟩], 4, 3⟩

def coveredPairRequest : IdentifyRequest := ⟨some "b", some "1"⟩

/-- A corrupt store: a single live secondary whose `linkedId` (99) resolves to
nothing. -/
def danglingStore : Store :=
  ⟨[⟨1, none, some "a", some 99, .secondary, 0, none⟩], 2, 1⟩

def danglingRequest : IdentifyRequest := ⟨some "a", none⟩

/-- Two independent singleton groups: primary 1 (email "a@x", phone "111",
created at 0) and primary 2 (email "b@y", phone "222", created at 1). -/
def twoGroupStore : Store :=
  ⟨[⟨1, some "111", some "a@x", none, .primary, 0, none⟩,
    ⟨2, some "222", some "b@y", none, .primary, 1, none⟩], 3, 2⟩

def twoGroupRequest : IdentifyRequest := ⟨some "a@x", some "222"⟩

/-- How a merge redirects a claimed canonical id. -/
def redirectCanon (uid : Nat) (demoted : List Nat) : Option Nat → Option Nat
  | some k => if demoted.contains k = true then some uid else some k
  | none => none

/-- The store produced by running `mergeTieRequest` against `mergeTieStore`:
row 3 won the merge (despite tying with row 1 on `createdAt` and having the
larger id), row 1 was demoted under it, row 2 re-linked, and row 4 records the
submitted pair. -/
def mergeTieFinal : Store :=
  ⟨[⟨1, none, some "a", some 3, .secondary, 0, none⟩,
    ⟨2, some "p", some "a", some 3, .secondary, 1, none⟩,
    ⟨3, some "q", some "b", none, .primary, 0, none⟩,
    ⟨4, some "p", some "b", some 3, .secondary, 2, none⟩], 5, 3⟩

/-! ### End of definitions used by the embedding core; further
property definitions follow, then all lemmas and theorems. -/

/-! ### List-level utility lemmas -/

lemma head?_filter_eq_find? {α : Type} (p : α → Bool) (l : List α) :
    (l.filter p).head? = l.find? p := by
  induction l with
  | nil => rfl
  | cons x xs ih =>
    simp only [List.filter, List.find?]
    split <;> simp [ih]

lemma jsSetDedup_mem_aux {α : Type} [BEq α] [LawfulBEq α] {x : α} :
    ∀ (l acc : List α),
      (x ∈ l.foldl (fun acc y => if acc.contains y then acc else acc ++ [y]) acc ↔
        x ∈ acc ∨ x ∈ l) := by
  intro l
  induction l with
  | nil => intro acc; simp
  | cons y ys ih =>
    intro acc
    simp only [List.foldl]
    by_cases hy : acc.contains y = true
    · rw [if_pos hy, ih]
      have hy2 : x ∈ acc → x ∈ acc := id
      have hy3 : y ∈ acc := by simpa using hy
      simp only [List.mem_cons]
      constructor
      · rintro (h | h)
        · exact Or.inl h
        · exact Or.inr (Or.inr h)
      · rintro (h | rfl | h)
        · exact Or.inl h
        · exact Or.inl hy3
        · exact Or.inr h
    · rw [if_neg hy, ih]
      simp only [List.mem_append, List.mem_singleton, List.mem_cons]
      tauto

lemma mem_jsSetDedup {α : Type} [BEq α] [LawfulBEq α] {l : List α} {x : α} :
    x ∈ jsSetDedup l ↔ x ∈ l := by
  unfold jsSetDedup
  rw [jsSetDedup_mem_aux]
  simp

lemma jsSetDedup_nodup_aux {α : Type} [BEq α] [LawfulBEq α] :
    ∀ (l acc : List α), acc.Nodup →
      (l.foldl (fun acc y => if acc.contains y then acc else acc ++ [y]) acc).Nodup := by
  intro l
  induction l with
  | nil => intro acc h; simpa using h
  | cons y ys ih =>
    intro acc hacc
    simp only [List.foldl]
    by_cases hy : acc.contains y = true
    · rw [if_pos hy]; exact ih _ hacc
    · rw [if_neg hy]
      refine ih _ ?_
      have hy3 : y ∉ acc := by simpa using hy
      simp [List.nodup_append, hacc, hy3]

lemma nodup_jsSetDedup {α : Type} [BEq α] [LawfulBEq α] (l : List α) :
    (jsSetDedup l).Nodup :=
  jsSetDedup_nodup_aux l [] List.nodup_nil

/-! ### Lemmas about `dedupById` (the JS `Map` dedup) -/

lemma dedupById_forall_aux {P : Contact → Prop} :
    ∀ (l acc : List Contact), (∀ x ∈ acc, P x) → (∀ x ∈ l, P x) →
      ∀ x ∈ l.foldl
        (fun acc c =>
          if acc.any (fun d => d.id == c.id) then acc.map (fun d => if d.id == c.id then c else d)
          else acc ++ [c]) acc, P x := by
  intro l
  induction l with
  | nil => intro acc hacc _ x hx; exact hacc x hx
  | cons c cs ih =>
    intro acc hacc hl x hx
    simp only [List.foldl] at hx
    by_cases hc : acc.any (fun d => d.id == c.id) = true
    · rw [if_pos hc] at hx
      refine ih _ ?_ (fun y hy => hl y (List.mem_cons_of_mem _ hy)) x hx
      intro y hy
      rcases List.mem_map.mp hy with ⟨d, hd, hdy⟩
      by_cases hdc : (d.id == c.id) = true
      · rw [if_pos hdc] at hdy; exact hdy ▸ hl c (List.mem_cons_self _ _)
      · rw [if_neg hdc] at hdy; exact hdy ▸ hacc d hd
    · rw [if_neg hc] at hx
      refine ih _ ?_ (fun y hy => hl y (List.mem_cons_of_mem _ hy)) x hx
      intro y hy
      rcases List.mem_append.mp hy with hy | hy
      · exact hacc y hy
      · rw [List.mem_singleton.mp hy]; exact hl c (List.mem_cons_self _ _)

lemma dedupById_forall {P : Contact → Prop} {l : List Contact} (h : ∀ x ∈ l, P x) :
    ∀ x ∈ dedupById l, P x :=
  dedupById_forall_aux l [] (by simp) h

lemma dedupById_ids_nodup_aux :
    ∀ (l acc : List Contact), (acc.map Contact.id).Nodup →
      ((l.foldl
        (fun acc c =>
          if acc.any (fun d => d.id == c.id) then acc.map (fun d => if d.id == c.id then c else d)
          else acc ++ [c]) acc).map Contact.id).Nodup := by
  intro l
  induction l with
  | nil => intro acc h; simpa using h
  | cons c cs ih =>
    intro acc hacc
    simp only [List.foldl]
    by_cases hc : acc.any (fun d => d.id == c.id) = true
    · rw [if_pos hc]
      refine ih _ ?_
      have hmap : (acc.map (fun d => if d.id == c.id then c else d)).map Contact.id
          = acc.map Contact.id := by
        rw [List.map_map]
        refine List.map_congr_left ?_
        intro d _
        by_cases hdc : (d.id == c.id) = true
        · simp only [Function.comp]
          rw [if_pos hdc]
          exact (beq_iff_eq.mp hdc).symm
        · simp only [Function.comp]
          rw [if_neg hdc]
      rw [hmap]
      exact hacc
    · rw [if_neg hc]
      refine ih _ ?_
      have hnot : c.id ∉ acc.map Contact.id := by
        intro hmem
        rcases List.mem_map.mp hmem with ⟨d, hd, hdid⟩
        exact hc (List.any_eq_true.mpr ⟨d, hd, beq_iff_eq.mpr hdid⟩)
      simp [List.nodup_append, hacc, hnot]

lemma dedupById_ids_nodup (l : List Contact) : ((dedupById l).map Contact.id).Nodup :=
  dedupById_ids_nodup_aux l [] (by simp)

lemma dedupById_idset_mono :
    ∀ (l acc : List Contact) (i : Nat), (∃ y ∈ acc, y.id = i) →
      ∃ y ∈ l.foldl
        (fun acc c =>
          if acc.any (fun d => d.id == c.id) then acc.map (fun d => if d.id == c.id then c else d)
          else acc ++ [c]) acc, y.id = i := by
  intro l
  induction l with
  | nil => intro acc i h; simpa using h
  | cons c cs ih =>
    intro acc i h
    simp only [List.foldl]
    by_cases hc : acc.any (fun d => d.id == c.id) = true
    · rw [if_pos hc]
      refine ih _ i ?_
      rcases h with ⟨y, hy, hyi⟩
      by_cases hyc : (y.id == c.id) = true
      · exact ⟨c, List.mem_map.mpr ⟨y, hy, by rw [if_pos hyc]⟩, by
          rw [← (beq_iff_eq.mp hyc)]; exact hyi⟩
      · exact ⟨y, List.mem_map.mpr ⟨y, hy, by rw [if_neg hyc]⟩, hyi⟩
    · rw [if_neg hc]
      refine ih _ i ?_
      rcases h with ⟨y, hy, hyi⟩
      exact ⟨y, List.mem_append.mpr (Or.inl hy), hyi⟩

lemma exists_mem_dedupById_aux :
    ∀ (l acc : List Contact) (x : Contact), x ∈ l →
      ∃ y ∈ l.foldl
        (fun acc c =>
          if acc.any (fun d => d.id == c.id) then acc.map (fun d => if d.id == c.id then c else d)
          else acc ++ [c]) acc, y.id = x.id := by
  intro l
  induction l with
  | nil => intro acc x hx; cases hx
  | cons c cs ih =>
    intro acc x hx
    rcases List.mem_cons.mp hx with rfl | hx
    · simp only [List.foldl]
      by_cases hc : acc.any (fun d => d.id == x.id) = true
      · rw [if_pos hc]
        refine dedupById_idset_mono cs _ x.id ?_
        rcases List.any_eq_true.mp hc with ⟨d, hd, hdx⟩
        exact ⟨x, List.mem_map.mpr ⟨d, hd, by rw [if_pos hdx]⟩, rfl⟩
      · rw [if_neg hc]
        refine dedupById_idset_mono cs _ x.id ?_
        exact ⟨x, List.mem_append.mpr (Or.inr (List.mem_singleton.mpr rfl)), rfl⟩
    · simp only [List.foldl]
      by_cases hc : acc.any (fun d => d.id == c.id) = true
      · rw [if_pos hc]; exact ih _ x hx
      · rw [if_neg hc]; exact ih _ x hx

lemma exists_mem_dedupById {l : List Contact} {x : Contact} (hx : x ∈ l) :
    ∃ y ∈ dedupById l, y.id = x.id :=
  exists_mem_dedupById_aux l [] x hx

/-! ### Query-layer lemmas -/

lemma mem_sortByCreatedAt {l : List Contact} {c : Contact} :
    c ∈ sortByCreatedAt l ↔ c ∈ l :=
  (List.mergeSort_perm l _).mem_iff

lemma sortByCreatedAt_pairwise (l : List Contact) :
    List.Pairwise (fun a b => a.createdAt ≤ b.createdAt) (sortByCreatedAt l) := by
  have h := @List.sorted_mergeSort Contact (fun a b => decide (a.createdAt ≤ b.createdAt))
      (fun a b c hab hbc => by
        simp only [decide_eq_true_eq] at hab hbc ⊢
        exact le_trans hab hbc)
      (fun a b => by
        simp only [Bool.or_eq_true, decide_eq_true_eq]
        exact Nat.le_total _ _) l
  exact h.imp (fun hd => by simpa using hd)

lemma id_inj {l : List Contact} (hnd : (l.map Contact.id).Nodup) {a b : Contact}
    (ha : a ∈ l) (hb : b ∈ l) (hid : a.id = b.id) : a = b :=
  List.inj_on_of_nodup_map hnd ha hb hid

lemma findById_mem {s : Store} {i : Nat} {p : Contact} (h : findById s i = some p) :
    p ∈ s.contacts ∧ isLive p = true ∧ p.id = i := by
  unfold findById at h
  rw [head?_filter_eq_find?] at h
  have hm := List.mem_of_find?_eq_some h
  have hp := List.find?_some h
  simp only [Bool.and_eq_true, beq_iff_eq] at hp
  exact ⟨hm, hp.2, hp.1⟩

lemma find?_id_unique {l : List Contact} {c : Contact} {i : Nat}
    (hnd : (l.map Contact.id).Nodup) (hc : c ∈ l) (hl : isLive c = true) (hi : c.id = i) :
    l.find? (fun d => d.id == i && isLive d) = some c := by
  induction l with
  | nil => cases hc
  | cons x xs ih =>
    simp only [List.map, List.nodup_cons, List.mem_map] at hnd
    rcases List.mem_cons.mp hc with rfl | hc
    · rw [List.find?_cons_of_pos]
      simp [hl, hi]
    · have hne : (x.id == i) = false := by
        refine beq_eq_false_iff_ne.mpr ?_
        intro hxe
        exact hnd.1 ⟨c, hc, by rw [hi, ← hxe]⟩
      rw [List.find?_cons_of_neg]
      · exact ih (by
          have := hnd.2
          simpa using this) hc
      · simp [hne]

lemma findById_of_mem {s : Store} {c : Contact} {i : Nat}
    (hnd : (s.contacts.map Contact.id).Nodup) (hc : c ∈ s.contacts) (hl : isLive c = true)
    (hi : c.id = i) :
    findById s i = some c := by
  unfold findById
  rw [head?_filter_eq_find?]
  exact find?_id_unique hnd hc hl hi

lemma sharesIdentifier_symm {a b : Node} (h : sharesIdentifier a b = true) :
    sharesIdentifier b a = true := by
  simp only [sharesIdentifier, Bool.or_eq_true, Bool.and_eq_true, beq_iff_eq] at h ⊢
  rcases h with ⟨hs, he⟩ | ⟨hs, hp⟩
  · exact Or.inl ⟨by rw [← he]; exact hs, he.symm⟩
  · exact Or.inr ⟨by rw [← hp]; exact hs, hp.symm⟩

lemma identStep_symm {ns : List Node} : Symmetric (identStep ns) :=
  fun _ _ h => ⟨h.2.1, h.1, sharesIdentifier_symm h.2.2⟩

lemma reach_symm {ns : List Node} {a b : Node} (h : reach ns a b) : reach ns b a :=
  Relation.ReflTransGen.symmetric identStep_symm h

lemma reach_mono {ns ns' : List Node} (h : ∀ x ∈ ns, x ∈ ns') {a b : Node}
    (hr : reach ns a b) : reach ns' a b :=
  Relation.ReflTransGen.mono (fun x y hs => ⟨h x hs.1, h y hs.2.1, hs.2.2⟩) hr

/-- Any function constant on identifier-sharing pairs is constant on components. -/
lemma reach_constant {β : Type} {ns : List Node} (f : Node → β)
    (h : ∀ x ∈ ns, ∀ y ∈ ns, sharesIdentifier x y = true → f x = f y)
    {a b : Node} (hr : reach ns a b) : f a = f b := by
  induction hr with
  | refl => rfl
  | tail _ hs ih => exact ih.trans (h _ hs.1 _ hs.2.1 hs.2.2)

lemma reach_mem {ns : List Node} {a b : Node} (h : reach ns a b) :
    a = b ∨ (a ∈ ns ∧ b ∈ ns) := by
  induction h with
  | refl => exact Or.inl rfl
  | tail _ hs ih =>
    rcases ih with rfl | ⟨ha, _⟩
    · exact Or.inr ⟨hs.1, hs.2.1⟩
    · exact Or.inr ⟨ha, hs.2.1⟩

lemma node_mem_nodesOf {s : Store} {c : Contact} (hc : c ∈ s.contacts) (hl : isLive c = true) :
    c.node ∈ nodesOf s :=
  List.mem_map.mpr ⟨c, List.mem_filter.mpr ⟨hc, hl⟩, rfl⟩

lemma mem_nodesOf {s : Store} {x : Node} (hx : x ∈ nodesOf s) :
    ∃ c ∈ s.contacts, isLive c = true ∧ c.node = x := by
  rcases List.mem_map.mp hx with ⟨c, hc, rfl⟩
  exact ⟨c, (List.mem_filter.mp hc).1, (List.mem_filter.mp hc).2, rfl⟩

lemma reach_single_of_shares {s : Store} {a b : Contact}
    (ha : a ∈ s.contacts) (hla : isLive a = true) (hb : b ∈ s.contacts) (hlb : isLive b = true)
    (hsh : sharesIdentifier a.node b.node = true) : reach (nodesOf s) a.node b.node :=
  Relation.ReflTransGen.single ⟨node_mem_nodesOf ha hla, node_mem_nodesOf hb hlb, hsh⟩

lemma linkPrecedence_secondary_of_ne {c : Contact} (h : ¬ c.linkPrecedence = .primary) :
    c.linkPrecedence = .secondary := by
  cases hc : c.linkPrecedence
  · exact absurd hc h
  · rfl

/-- Every live row claims the id of a live primary row of the store. -/
lemma canonicalRecord {s : Store} (hInv : StoreInv s) {m : Contact} (hm : m ∈ s.contacts)
    (hlive : isLive m = true) :
    ∃ q ∈ s.contacts, isLive q = true ∧ q.linkPrecedence = .primary ∧
      canonicalIdOf m = some q.id := by
  cases hq : m.linkPrecedence with
  | primary => exact ⟨m, hm, hlive, hq, by simp [canonicalIdOf, hq]⟩
  | secondary =>
    rcases hInv.flat m hm hlive hq with ⟨p, hp, hpl, hml, hpp⟩
    exact ⟨p, hp, hpl, hpp, by simp [canonicalIdOf, hq, hml]⟩

lemma canonicalIdOf_primary {c : Contact} (h : c.linkPrecedence = .primary) :
    canonicalIdOf c = some c.id := by
  simp [canonicalIdOf, h]

lemma canonicalIdOf_secondary {c : Contact} (h : c.linkPrecedence = .secondary) :
    canonicalIdOf c = c.linkedId := by
  simp [canonicalIdOf, h]

/-! ### Lemmas about the Identity Graph Loader -/

lemma mem_dedupNat {l : List Nat} {x : Nat} : x ∈ dedupNat l ↔ x ∈ l := by
  unfold dedupNat
  exact mem_jsSetDedup

lemma mem_dedupStrings {l : List String} {x : String} : x ∈ dedupStrings l ↔ x ∈ l := by
  unfold dedupStrings
  exact mem_jsSetDedup

lemma nodup_dedupStrings (l : List String) : (dedupStrings l).Nodup := by
  unfold dedupStrings
  exact nodup_jsSetDedup l

lemma mem_findContacts {s : Store} {e p : Option String} {c : Contact} :
    c ∈ findContacts s e p ↔
      c ∈ s.contacts ∧ matchesIdentifiers e p c = true ∧ isLive c = true := by
  unfold findContacts
  rw [mem_sortByCreatedAt, List.mem_filter, Bool.and_eq_true]

lemma matchesIdentifiers_iff {e p : Option String} {c : Contact} :
    matchesIdentifiers e p c = true ↔
      (∃ ev, e = some ev ∧ c.email = some ev) ∨ (∃ pv, p = some pv ∧ c.phoneNumber = some pv) := by
  cases e <;> cases p <;> simp [matchesIdentifiers]

lemma loadCandidates_eq (s : Store) (e p : Option String) :
    loadCandidates s e p =
      sortByCreatedAt (dedupById
        ((findContacts s e p).filter (fun c => c.linkPrecedence == .primary)
          ++ linkedPrimariesOf s ((findContacts s e p).filter (fun c => !(c.linkPrecedence == .primary))))) := rfl

lemma mem_linkedPrimariesOf {s : Store} {secondaries : List Contact} {c : Contact}
    (hc : c ∈ linkedPrimariesOf s secondaries) :
    c.linkPrecedence = .primary ∧ findById s c.id = some c ∧
      ∃ m ∈ secondaries, m.linkedId = some c.id := by
  unfold linkedPrimariesOf at hc
  rcases List.mem_filterMap.mp hc with ⟨i, hi, hmatch⟩
  have hi2 : i ∈ secondaries.filterMap (fun c => c.linkedId) := mem_dedupNat.mp hi
  rcases List.mem_filterMap.mp hi2 with ⟨m, hm, hmi⟩
  cases hfind : findById s i with
  | none => rw [hfind] at hmatch; cases hmatch
  | some q =>
    rw [hfind] at hmatch
    have hmatch2 : (if (q.linkPrecedence == LinkPrecedence.primary) = true then some q else none)
        = some c := hmatch
    by_cases hq : (q.linkPrecedence == LinkPrecedence.primary) = true
    · rw [if_pos hq] at hmatch2
      cases hmatch2
      have hqi : c.id = i := (findById_mem hfind).2.2
      refine ⟨beq_iff_eq.mp hq, by rw [hqi]; exact hfind, m, hm, by rw [hqi]; exact hmi⟩
    · rw [if_neg hq] at hmatch2; cases hmatch2

lemma candidate_base {s : Store} {e p : Option String} :
    ∀ c ∈ (findContacts s e p).filter (fun c => c.linkPrecedence == .primary)
        ++ linkedPrimariesOf s ((findContacts s e p).filter (fun c => !(c.linkPrecedence == .primary))),
      c ∈ s.contacts ∧ isLive c = true ∧ c.linkPrecedence = .primary := by
  intro c hc
  rcases List.mem_append.mp hc with hc | hc
  · rcases List.mem_filter.mp hc with ⟨hc1, hc2⟩
    rcases mem_findContacts.mp hc1 with ⟨hmem, _, hlive⟩
    exact ⟨hmem, hlive, beq_iff_eq.mp hc2⟩
  · rcases mem_linkedPrimariesOf hc with ⟨hprim, hfind, _⟩
    rcases findById_mem hfind with ⟨hmem, hlive, _⟩
    exact ⟨hmem, hlive, hprim⟩

/-- Every candidate produced by the loader is a live primary of the store. -/
lemma candidate_mem {s : Store} {e p : Option String} :
    ∀ c ∈ loadCandidates s e p,
      c ∈ s.contacts ∧ isLive c = true ∧ c.linkPrecedence = .primary := by
  intro c hc
  rw [loadCandidates_eq, mem_sortByCreatedAt] at hc
  exact dedupById_forall candidate_base c hc

/-- Every candidate is the canonical claimed by some directly matched live row. -/
lemma candidate_origin {s : Store} {e p : Option String} :
    ∀ c ∈ loadCandidates s e p,
      ∃ m ∈ s.contacts, isLive m = true ∧ matchesIdentifiers e p m = true ∧
        canonicalIdOf m = some c.id := by
  intro c hc
  rw [loadCandidates_eq, mem_sortByCreatedAt] at hc
  refine @dedupById_forall
    (fun x => ∃ m ∈ s.contacts, isLive m = true ∧ matchesIdentifiers e p m = true ∧
      canonicalIdOf m = some x.id) _ ?_ c hc
  intro x hx
  rcases List.mem_append.mp hx with hx | hx
  · rcases List.mem_filter.mp hx with ⟨hx1, hx2⟩
    rcases mem_findContacts.mp hx1 with ⟨hmem, hmatch, hlive⟩
    exact ⟨x, hmem, hlive, hmatch, canonicalIdOf_primary (beq_iff_eq.mp hx2)⟩
  · rcases mem_linkedPrimariesOf hx with ⟨_, _, m, hm, hml⟩
    rcases List.mem_filter.mp hm with ⟨hm1, hm2⟩
    rcases mem_findContacts.mp hm1 with ⟨hmem, hmatch, hlive⟩
    have hsec : m.linkPrecedence = .secondary := by
      refine linkPrecedence_secondary_of_ne ?_
      intro hcontra
      rw [hcontra] at hm2
      simp at hm2
    exact ⟨m, hmem, hlive, hmatch, by rw [canonicalIdOf_secondary hsec]; exact hml⟩

/-- Completeness of the loader: the canonical claimed by any directly matched
live row is among the candidates. -/
lemma candidate_complete {s : Store} {e p : Option String}
    (hnd : (s.contacts.map Contact.id).Nodup)
    {m q : Contact} (hm : m ∈ s.contacts) (hml : isLive m = true)
    (hmm : matchesIdentifiers e p m = true)
    (hq : q ∈ s.contacts) (hql : isLive q = true) (hqp : q.linkPrecedence = .primary)
    (hcan : canonicalIdOf m = some q.id) :
    q ∈ loadCandidates s e p := by
  have hbase : q ∈ (findContacts s e p).filter (fun c => c.linkPrecedence == .primary)
      ++ linkedPrimariesOf s ((findContacts s e p).filter (fun c => !(c.linkPrecedence == .primary))) := by
    cases hmp : m.linkPrecedence with
    | primary =>
      have hid : m.id = q.id := by
        have h1 := canonicalIdOf_primary hmp
        rw [h1] at hcan
        exact Option.some.inj hcan
      have hmq : m = q := id_inj hnd hm hq hid
      subst hmq
      exact List.mem_append.mpr (Or.inl (List.mem_filter.mpr
        ⟨mem_findContacts.mpr ⟨hm, hmm, hml⟩, beq_iff_eq.mpr hmp⟩))
    | secondary =>
      refine List.mem_append.mpr (Or.inr ?_)
      unfold linkedPrimariesOf
      refine List.mem_filterMap.mpr ⟨q.id, ?_, ?_⟩
      · refine mem_dedupNat.mpr ?_
        refine List.mem_filterMap.mpr ⟨m, ?_, ?_⟩
        · refine List.mem_filter.mpr ⟨mem_findContacts.mpr ⟨hm, hmm, hml⟩, ?_⟩
          simp [hmp]
        · rw [← canonicalIdOf_secondary hmp]; exact hcan
      · rw [findById_of_mem hnd hq hql rfl]
        simp [hqp]
  have hco : ∀ x ∈ (findContacts s e p).filter (fun c => c.linkPrecedence == .primary)
      ++ linkedPrimariesOf s ((findContacts s e p).filter (fun c => !(c.linkPrecedence == .primary))),
      x ∈ s.contacts := fun x hx => (candidate_base x hx).1
  rcases exists_mem_dedupById hbase with ⟨y, hy, hyq⟩
  have hymem : y ∈ s.contacts := (dedupById_forall hco) y hy
  have hyq2 : y = q := id_inj hnd hymem hq hyq
  rw [loadCandidates_eq, mem_sortByCreatedAt]
  rw [← hyq2]
  exact hy

lemma loadCandidates_sorted (s : Store) (e p : Option String) :
    List.Pairwise (fun a b => a.createdAt ≤ b.createdAt) (loadCandidates s e p) := by
  rw [loadCandidates_eq]
  exact sortByCreatedAt_pairwise _

lemma loadCandidates_ids_nodup (s : Store) (e p : Option String) :
    ((loadCandidates s e p).map Contact.id).Nodup := by
  rw [loadCandidates_eq]
  have hperm := (List.mergeSort_perm (dedupById
    ((findContacts s e p).filter (fun c => c.linkPrecedence == .primary)
      ++ linkedPrimariesOf s ((findContacts s e p).filter (fun c => !(c.linkPrecedence == .primary)))))
    (fun a b => decide (a.createdAt ≤ b.createdAt)))
  exact ((hperm.map Contact.id).nodup_iff).mpr (dedupById_ids_nodup _)

lemma loadCandidates_head_min {s : Store} {e p : Option String} {u : Contact} {rest : List Contact}
    (h : loadCandidates s e p = u :: rest) :
    ∀ c ∈ loadCandidates s e p, u.createdAt ≤ c.createdAt := by
  intro c hc
  have hp := loadCandidates_sorted s e p
  rw [h] at hp hc
  rcases List.mem_cons.mp hc with rfl | hc
  · exact le_refl _
  · exact (List.pairwise_cons.mp hp).1 c hc

/-! ### Characterisation of the merge engine -/

lemma updateContacts_contacts (s : Store) (ids : List Nat) (u : ContactUpdate) :
    (updateContacts s ids u).contacts
      = s.contacts.map (fun c => if ids.contains c.id then applyContactUpdate u c else c) := by
  unfold updateContacts
  by_cases h : ids.isEmpty
  · rw [if_pos h, List.isEmpty_iff.mp h]
    simp
  · rw [if_neg h]

lemma updateContacts_nextId (s : Store) (ids : List Nat) (u : ContactUpdate) :
    (updateContacts s ids u).nextId = s.nextId := by
  unfold updateContacts; split <;> rfl

lemma updateContacts_now (s : Store) (ids : List Nat) (u : ContactUpdate) :
    (updateContacts s ids u).now = s.now := by
  unfold updateContacts; split <;> rfl

/-- `mergeStore` with its intermediate `let`s spelled out. -/
lemma mergeStore_eq (s : Store) (uid : Nat) (demoted : List Nat) :
    mergeStore s uid demoted =
      if demoted.isEmpty then s
      else
        if (demoted.flatMap (fun i =>
            findByLinkedId (updateContacts s demoted ⟨some .secondary, some uid⟩) i)).isEmpty
        then updateContacts s demoted ⟨some .secondary, some uid⟩
        else updateContacts (updateContacts s demoted ⟨some .secondary, some uid⟩)
          ((demoted.flatMap (fun i =>
            findByLinkedId (updateContacts s demoted ⟨some .secondary, some uid⟩) i)).map
              (fun c => c.id))
          ⟨none, some uid⟩ := rfl

lemma mergeStore_nextId (s : Store) (uid : Nat) (demoted : List Nat) :
    (mergeStore s uid demoted).nextId = s.nextId := by
  rw [mergeStore_eq]
  split
  · rfl
  · split
    · rw [updateContacts_nextId]
    · rw [updateContacts_nextId, updateContacts_nextId]

lemma mergeStore_now (s : Store) (uid : Nat) (demoted : List Nat) :
    (mergeStore s uid demoted).now = s.now := by
  rw [mergeStore_eq]
  split
  · rfl
  · split
    · rw [updateContacts_now]
    · rw [updateContacts_now, updateContacts_now]

lemma applyContactUpdate_demote (uid : Nat) (c : Contact) :
    applyContactUpdate ⟨some .secondary, some uid⟩ c
      = { c with linkPrecedence := .secondary, linkedId := some uid } := rfl

lemma applyContactUpdate_relink (uid : Nat) (c : Contact) :
    applyContactUpdate ⟨none, some uid⟩ c = { c with linkedId := some uid } := rfl

lemma mem_findByLinkedId {s : Store} {i : Nat} {c : Contact} :
    c ∈ findByLinkedId s i ↔ c ∈ s.contacts ∧ c.linkedId = some i ∧ isLive c = true := by
  unfold findByLinkedId
  rw [List.mem_filter, Bool.and_eq_true]
  simp only [beq_iff_eq]

lemma mergeRow_id (uid : Nat) (demoted : List Nat) (c : Contact) :
    (mergeRow uid demoted c).id = c.id := by
  unfold mergeRow; split <;> [rfl; (split <;> rfl)]

lemma mergeRow_email (uid : Nat) (demoted : List Nat) (c : Contact) :
    (mergeRow uid demoted c).email = c.email := by
  unfold mergeRow; split <;> [rfl; (split <;> rfl)]

lemma mergeRow_phoneNumber (uid : Nat) (demoted : List Nat) (c : Contact) :
    (mergeRow uid demoted c).phoneNumber = c.phoneNumber := by
  unfold mergeRow; split <;> [rfl; (split <;> rfl)]

lemma mergeRow_createdAt (uid : Nat) (demoted : List Nat) (c : Contact) :
    (mergeRow uid demoted c).createdAt = c.createdAt := by
  unfold mergeRow; split <;> [rfl; (split <;> rfl)]

lemma mergeRow_deletedAt (uid : Nat) (demoted : List Nat) (c : Contact) :
    (mergeRow uid demoted c).deletedAt = c.deletedAt := by
  unfold mergeRow; split <;> [rfl; (split <;> rfl)]

lemma mergeRow_isLive (uid : Nat) (demoted : List Nat) (c : Contact) :
    isLive (mergeRow uid demoted c) = isLive c := by
  unfold isLive; rw [mergeRow_deletedAt]

lemma mergeRow_node (uid : Nat) (demoted : List Nat) (c : Contact) :
    (mergeRow uid demoted c).node = c.node := by
  unfold Contact.node
  rw [mergeRow_id, mergeRow_email, mergeRow_phoneNumber]

lemma mergeRow_of_demoted {uid : Nat} {demoted : List Nat} {c : Contact}
    (h : demoted.contains c.id = true) :
    mergeRow uid demoted c = { c with linkPrecedence := .secondary, linkedId := some uid } := by
  unfold mergeRow; rw [if_pos h]

lemma mergeRow_of_relink {uid : Nat} {demoted : List Nat} {c : Contact}
    (h : demoted.contains c.id = false) (h2 : (isLive c && pointsAtDemoted demoted c) = true) :
    mergeRow uid demoted c = { c with linkedId := some uid } := by
  unfold mergeRow
  rw [if_neg (by rw [h]; exact Bool.false_ne_true), if_pos h2]

lemma mergeRow_of_other {uid : Nat} {demoted : List Nat} {c : Contact}
    (h : demoted.contains c.id = false) (h2 : (isLive c && pointsAtDemoted demoted c) = false) :
    mergeRow uid demoted c = c := by
  unfold mergeRow
  rw [if_neg (by rw [h]; exact Bool.false_ne_true), if_neg (by rw [h2]; exact Bool.false_ne_true)]

lemma bool_eq_false_of_not {b : Bool} (h : ¬ b = true) : b = false := by
  cases hb : b
  · rfl
  · exact absurd hb h

lemma contains_of_mem {l : List Nat} {a : Nat} (h : a ∈ l) : l.contains a = true := by
  simpa using h

lemma mem_of_contains {l : List Nat} {a : Nat} (h : l.contains a = true) : a ∈ l := by
  simpa using h

lemma not_contains_of_not_mem {l : List Nat} {a : Nat} (h : a ∉ l) : l.contains a = false := by
  cases hc : l.contains a
  · rfl
  · exact absurd (by simpa using hc) h

lemma pointsAtDemoted_iff {demoted : List Nat} {c : Contact} :
    pointsAtDemoted demoted c = true ↔ ∃ d ∈ demoted, c.linkedId = some d := by
  unfold pointsAtDemoted
  cases hcl : c.linkedId with
  | none => simp
  | some d =>
    simp only [List.contains_iff_exists_mem_beq]
    constructor
    · rintro ⟨d2, hd2, hbeq⟩
      exact ⟨d2, hd2, by rw [beq_iff_eq.mp hbeq]⟩
    · rintro ⟨d2, hd2, hsome⟩
      exact ⟨d2, hd2, beq_iff_eq.mpr (Option.some.inj hsome)⟩

/-- The two bulk updates of the Merge Engine act row-wise as `mergeRow`. -/
lemma mergeStore_contacts {s : Store} {uid : Nat} {demoted : List Nat}
    (hnd : (s.contacts.map Contact.id).Nodup)
    (huid : uid ∉ demoted) :
    (mergeStore s uid demoted).contacts = s.contacts.map (mergeRow uid demoted) := by
  rw [mergeStore_eq]
  by_cases hemp : demoted.isEmpty
  · rw [if_pos hemp]
    have hd : demoted = [] := List.isEmpty_iff.mp hemp
    subst hd
    have hrow : ∀ c ∈ s.contacts, c = mergeRow uid [] c := by
      intro c _
      have h1 : ([] : List Nat).contains c.id = false := rfl
      have h2 : (isLive c && pointsAtDemoted [] c) = false := by
        cases hp : pointsAtDemoted [] c
        · rw [Bool.and_false]
        · rcases pointsAtDemoted_iff.mp hp with ⟨d, hd, _⟩
          cases hd
      rw [mergeRow_of_other h1 h2]
    calc s.contacts = s.contacts.map (fun c => c) := by rw [List.map_id']
      _ = s.contacts.map (mergeRow uid []) :=
          List.map_congr_left (fun a ha => hrow a ha)
  · rw [if_neg hemp]
    set sA := updateContacts s demoted ⟨some LinkPrecedence.secondary, some uid⟩ with hsA
    have hsAc : sA.contacts = s.contacts.map
        (fun c => if demoted.contains c.id then
          { c with linkPrecedence := .secondary, linkedId := some uid } else c) := by
      rw [hsA, updateContacts_contacts]
      exact List.map_congr_left (fun c _ => by rw [applyContactUpdate_demote])
    set toRelink := demoted.flatMap (fun i => findByLinkedId sA i) with htr
    have hrelinkIds : ∀ i : Nat, ((toRelink.map (fun c => c.id)).contains i = true ↔
        ∃ c ∈ s.contacts, c.id = i ∧ demoted.contains c.id = false ∧ isLive c = true ∧
          pointsAtDemoted demoted c = true) := by
      intro i
      constructor
      · intro hcont
        rcases List.contains_iff_exists_mem_beq.mp hcont with ⟨j, hj, hbeq⟩
        have hij : i = j := beq_iff_eq.mp hbeq
        subst hij
        rcases List.mem_map.mp hj with ⟨x, hx, hxi⟩
        rcases List.mem_flatMap.mp hx with ⟨d, hd, hxd⟩
        rcases mem_findByLinkedId.mp hxd with ⟨hxm, hxl, hxlive⟩
        rw [hsAc] at hxm
        rcases List.mem_map.mp hxm with ⟨c0, hc0, hc0x⟩
        by_cases h0 : demoted.contains c0.id = true
        · exfalso
          rw [if_pos h0] at hc0x
          rw [← hc0x] at hxl
          have hud : uid = d := Option.some.inj hxl
          exact huid (hud ▸ hd)
        · have h0f : demoted.contains c0.id = false := bool_eq_false_of_not h0
          rw [if_neg h0] at hc0x
          subst hc0x
          refine ⟨c0, hc0, hxi, h0f, hxlive, ?_⟩
          exact pointsAtDemoted_iff.mpr ⟨d, hd, hxl⟩
      · rintro ⟨c, hc, hci, hcdem, hclive, hcpd⟩
        rcases pointsAtDemoted_iff.mp hcpd with ⟨d, hd, hcl⟩
        refine List.contains_iff_exists_mem_beq.mpr ⟨i, ?_, beq_iff_eq.mpr rfl⟩
        rw [← hci]
        refine List.mem_map.mpr ⟨c, ?_, rfl⟩
        refine List.mem_flatMap.mpr ⟨d, hd, ?_⟩
        refine mem_findByLinkedId.mpr ⟨?_, hcl, hclive⟩
        rw [hsAc]
        exact List.mem_map.mpr ⟨c, hc, by rw [if_neg (by rw [hcdem]; exact Bool.false_ne_true)]⟩
    by_cases hre : toRelink.isEmpty
    · rw [if_pos hre]
      have hnone : ∀ c ∈ s.contacts, demoted.contains c.id = false →
          (isLive c && pointsAtDemoted demoted c) = false := by
        intro c hc hcdem
        cases hR : (isLive c && pointsAtDemoted demoted c)
        · rfl
        · exfalso
          rcases Bool.and_eq_true _ _ |>.mp hR with ⟨hl, hp⟩
          have := (hrelinkIds c.id).mpr ⟨c, hc, rfl, hcdem, hl, hp⟩
          rcases List.contains_iff_exists_mem_beq.mp this with ⟨j, hj, _⟩
          rcases List.mem_map.mp hj with ⟨x, hx, _⟩
          rw [List.isEmpty_iff.mp hre] at hx
          cases hx
      rw [hsAc]
      refine List.map_congr_left ?_
      intro c hc
      by_cases h0 : demoted.contains c.id = true
      · rw [if_pos h0, mergeRow_of_demoted h0]
      · have h0f := bool_eq_false_of_not h0
        rw [if_neg h0, mergeRow_of_other h0f (hnone c hc h0f)]
    · rw [if_neg hre, updateContacts_contacts, hsAc, List.map_map]
      refine List.map_congr_left ?_
      intro c hc
      simp only [Function.comp]
      by_cases h0 : demoted.contains c.id = true
      · rw [if_pos h0]
        have hnotin : ((toRelink.map (fun c => c.id)).contains
            ({ c with linkPrecedence := LinkPrecedence.secondary, linkedId := some uid } : Contact).id)
            = false := by
          cases hcase : (toRelink.map (fun c => c.id)).contains
              ({ c with linkPrecedence := LinkPrecedence.secondary, linkedId := some uid } : Contact).id
          · rfl
          · exfalso
            rcases (hrelinkIds _).mp hcase with ⟨c2, hc2, hc2i, hc2dem, _, _⟩
            have : c2 = c := id_inj hnd hc2 hc hc2i
            subst this
            rw [h0] at hc2dem
            cases hc2dem
        have hmap : (toRelink.map Contact.id) = (toRelink.map (fun c => c.id)) := rfl
        rw [if_neg (by rw [hnotin]; exact Bool.false_ne_true)]
        rw [mergeRow_of_demoted h0]
      · have h0f := bool_eq_false_of_not h0
        rw [if_neg h0]
        by_cases hR : (isLive c && pointsAtDemoted demoted c) = true
        · have hin : ((toRelink.map (fun c => c.id)).contains c.id) = true := by
            rcases Bool.and_eq_true _ _ |>.mp hR with ⟨hl, hp⟩
            exact (hrelinkIds c.id).mpr ⟨c, hc, rfl, h0f, hl, hp⟩
          rw [if_pos hin, mergeRow_of_relink h0f hR]
          rfl
        · have hR2 := bool_eq_false_of_not hR
          have hnotin : ((toRelink.map (fun c => c.id)).contains c.id) = false := by
            cases hcase : (toRelink.map (fun c => c.id)).contains c.id
            · rfl
            · exfalso
              rcases (hrelinkIds _).mp hcase with ⟨c2, hc2, hc2i, hc2dem, hc2l, hc2p⟩
              have : c2 = c := id_inj hnd hc2 hc hc2i
              subst this
              rw [hc2l, hc2p] at hR2
              cases hR2
          rw [if_neg (by rw [hnotin]; exact Bool.false_ne_true)]
          rw [mergeRow_of_other h0f hR2]

/-! ### Equations for the pipeline and node-set invariance -/

lemma nodesOf_mergeStore {s : Store} {uid : Nat} {demoted : List Nat}
    (hnd : (s.contacts.map Contact.id).Nodup) (huid : uid ∉ demoted) :
    nodesOf (mergeStore s uid demoted) = nodesOf s := by
  unfold nodesOf
  rw [mergeStore_contacts hnd huid, List.filter_map, List.map_map]
  have hfil : s.contacts.filter ((fun c => isLive c) ∘ mergeRow uid demoted)
      = s.contacts.filter (fun c => isLive c) :=
    List.filter_congr (fun c _ => by simp only [Function.comp]; rw [mergeRow_isLive])
  rw [hfil]
  exact List.map_congr_left (fun c _ => by simp only [Function.comp]; rw [mergeRow_node])

lemma createContact_contacts (s : Store) (d : NewContactData) :
    ((createContact s d).1).contacts = s.contacts ++ [(createContact s d).2] := rfl

lemma createContact_snd (s : Store) (d : NewContactData) :
    (createContact s d).2
      = ⟨s.nextId, d.phoneNumber, d.email, d.linkedId, d.linkPrecedence, s.now, none⟩ := rfl

lemma createContact_nextId (s : Store) (d : NewContactData) :
    ((createContact s d).1).nextId = s.nextId + 1 := rfl

lemma createContact_now (s : Store) (d : NewContactData) :
    ((createContact s d).1).now = s.now + 1 := rfl

lemma nodesOf_createContact (s : Store) (d : NewContactData) :
    nodesOf (createContact s d).1 = nodesOf s ++ [(createContact s d).2.node] := by
  unfold nodesOf
  rw [createContact_contacts, List.filter_append, List.map_append]
  rfl

lemma mem_queryAllLinkedContacts {s : Store} {pid : Nat} {c : Contact} :
    c ∈ queryAllLinkedContacts s pid ↔
      c ∈ s.contacts ∧ (c.id = pid ∨ c.linkedId = some pid) ∧ isLive c = true := by
  unfold queryAllLinkedContacts
  rw [mem_sortByCreatedAt, List.mem_filter, Bool.and_eq_true, Bool.or_eq_true]
  simp only [beq_iff_eq]

lemma decideStore_eq (s1 : Store) (uid : Nat) (e p : Option String) :
    decideStore s1 uid e p =
      if !exactMatchInGroup e p (queryAllLinkedContacts s1 uid) && (e.isSome || p.isSome) then
        (createContact s1 ⟨e, p, some uid, .secondary⟩).1
      else s1 := rfl

lemma identifyBody_nil {req : IdentifyRequest} {s : Store}
    (h : loadCandidates s req.email req.phoneNumber = []) :
    identifyBody req s
      = ((createContact s ⟨req.email, req.phoneNumber, none, .primary⟩).1,
         assembleResponse (createContact s ⟨req.email, req.phoneNumber, none, .primary⟩).1
           s.nextId) := by
  unfold identifyBody
  rw [h]
  rfl

lemma identifyBody_cons {req : IdentifyRequest} {s : Store} {u : Contact} {rest : List Contact}
    (h : loadCandidates s req.email req.phoneNumber = u :: rest) :
    identifyBody req s
      = (decideStore (mergeStore s u.id (rest.map (fun c => c.id))) u.id req.email req.phoneNumber,
         assembleResponse
           (decideStore (mergeStore s u.id (rest.map (fun c => c.id))) u.id req.email req.phoneNumber)
           u.id) := by
  unfold identifyBody
  rw [h]

lemma identify_eq_error {req : IdentifyRequest} {s : Store}
    (he : req.email = none) (hp : req.phoneNumber = none) :
    identify req s = (s, Except.error IdentifyError.validation) := by
  unfold identify
  rw [he, hp]
  rfl

lemma identify_eq_ok {req : IdentifyRequest} {s : Store}
    (h : req.email.isSome = true ∨ req.phoneNumber.isSome = true) :
    identify req s = ((identifyBody req s).1, Except.ok (identifyBody req s).2) := by
  unfold identify
  have hcond : (req.email.isNone && req.phoneNumber.isNone) = false := by
    rcases h with h | h
    · have hne : req.email.isNone = false := by
        cases he : req.email
        · rw [he] at h; exact Bool.noConfusion h
        · rfl
      rw [hne, Bool.false_and]
    · have hnp : req.phoneNumber.isNone = false := by
        cases hp : req.phoneNumber
        · rw [hp] at h; exact Bool.noConfusion h
        · rfl
      rw [hnp, Bool.and_false]
  rw [if_neg (by rw [hcond]; exact Bool.false_ne_true)]
  unfold transaction
  rfl

/-! ### Semantic lemmas under the invariants -/

lemma requestFieldMatches_some {v w : Option String} {x : String}
    (hv : v = some x) (h : requestFieldMatches v w = true) : w = some x := by
  subst hv
  unfold requestFieldMatches at h
  exact (beq_iff_eq.mp h).symm

lemma shares_of_eq_email {a b : Contact} {ev : String}
    (ha : a.email = some ev) (hb : b.email = some ev) :
    sharesIdentifier a.node b.node = true := by
  unfold sharesIdentifier Contact.node
  simp [ha, hb]

lemma shares_of_eq_phone {a b : Contact} {pv : String}
    (ha : a.phoneNumber = some pv) (hb : b.phoneNumber = some pv) :
    sharesIdentifier a.node b.node = true := by
  unfold sharesIdentifier Contact.node
  simp [ha, hb]

/-- A row satisfying both request-field checks shares an identifier with every
directly matched row. -/
lemma shares_of_matched_pair {e p : Option String} {g m : Contact}
    (hge : requestFieldMatches e g.email = true) (hgp : requestFieldMatches p g.phoneNumber = true)
    (hm : matchesIdentifiers e p m = true) :
    sharesIdentifier g.node m.node = true := by
  rcases matchesIdentifiers_iff.mp hm with ⟨ev, he, hme⟩ | ⟨pv, hp, hmp⟩
  · exact shares_of_eq_email (requestFieldMatches_some he hge) hme
  · exact shares_of_eq_phone (requestFieldMatches_some hp hgp) hmp

/-- Sharing an identifier with the would-be new row is exactly matching the
request. -/
lemma sharesIdentifier_newNode {e p : Option String} {c : Contact} {i : Nat} :
    sharesIdentifier c.node ⟨i, e, p⟩ = matchesIdentifiers e p c := by
  unfold sharesIdentifier matchesIdentifiers Contact.node
  cases e <;> cases p <;> cases hce : c.email <;> cases hcp : c.phoneNumber <;>
    simp [hce, hcp]

/-- Two live rows connected in the store state claim equal canonicals
(invariant 3 applied through a one-step share). -/
lemma canon_eq_of_shares {s : Store} (hInv : StoreInv s) {a b : Contact}
    (ha : a ∈ s.contacts) (hla : isLive a = true) (hb : b ∈ s.contacts) (hlb : isLive b = true)
    (hsh : sharesIdentifier a.node b.node = true) :
    canonicalIdOf a = canonicalIdOf b :=
  (hInv.connIff a ha b hb hla hlb).mp (reach_single_of_shares ha hla hb hlb hsh)

/-- How a merge rewrites the canonical id claimed by a live row: canonicals
pointing (directly or as self) at a demoted id are redirected to the survivor. -/
lemma canonicalIdOf_mergeRow {s : Store} (hInv : StoreInv s) {uid : Nat} {demoted : List Nat}
    (hdem : ∀ d ∈ demoted, ∃ r ∈ s.contacts, r.id = d ∧ isLive r = true ∧ r.linkPrecedence = .primary)
    {c : Contact} (hc : c ∈ s.contacts) (hlive : isLive c = true) :
    canonicalIdOf (mergeRow uid demoted c)
      = (match canonicalIdOf c with
         | some k => if demoted.contains k = true then some uid else some k
         | none => none) := by
  cases hcp : c.linkPrecedence with
  | primary =>
    have hnl : c.linkedId = none := hInv.primNoLink c hc hlive hcp
    rw [canonicalIdOf_primary hcp]
    by_cases h0 : demoted.contains c.id = true
    · rw [mergeRow_of_demoted h0]
      have hsec : ({ c with linkPrecedence := LinkPrecedence.secondary, linkedId := some uid }
          : Contact).linkPrecedence = .secondary := rfl
      rw [canonicalIdOf_secondary hsec]
      show some uid = if demoted.contains c.id = true then some uid else some c.id
      rw [if_pos h0]
    · have h0f := bool_eq_false_of_not h0
      have hpd : pointsAtDemoted demoted c = false := by
        unfold pointsAtDemoted; rw [hnl]
      rw [mergeRow_of_other h0f (by rw [hpd, Bool.and_false]), canonicalIdOf_primary hcp]
      show some c.id = if demoted.contains c.id = true then some uid else some c.id
      rw [if_neg (by rw [h0f]; exact Bool.false_ne_true)]
  | secondary =>
    have h0f : demoted.contains c.id = false := by
      cases h0 : demoted.contains c.id
      · rfl
      · exfalso
        rcases hdem c.id (mem_of_contains h0) with ⟨r, hr, hri, _, hrp⟩
        have hrc : r = c := id_inj hInv.nodupIds hr hc hri
        subst hrc
        rw [hcp] at hrp
        cases hrp
    cases hcl : c.linkedId with
    | none =>
      have hpd : pointsAtDemoted demoted c = false := by
        unfold pointsAtDemoted; rw [hcl]
      rw [mergeRow_of_other h0f (by rw [hpd, Bool.and_false]), canonicalIdOf_secondary hcp, hcl]
    | some d =>
      by_cases hd : demoted.contains d = true
      · have hpd : pointsAtDemoted demoted c = true := by
          unfold pointsAtDemoted; rw [hcl]; exact hd
        rw [mergeRow_of_relink h0f (by rw [hlive, hpd]; rfl)]
        have hsec : ({ c with linkedId := some uid } : Contact).linkPrecedence = .secondary := hcp
        rw [canonicalIdOf_secondary hsec, canonicalIdOf_secondary hcp, hcl]
        show some uid = if demoted.contains d = true then some uid else some d
        rw [if_pos hd]
      · have hdf := bool_eq_false_of_not hd
        have hpd : pointsAtDemoted demoted c = false := by
          unfold pointsAtDemoted; rw [hcl]; exact hdf
        rw [mergeRow_of_other h0f (by rw [hpd, Bool.and_false]), canonicalIdOf_secondary hcp, hcl]
        show some d = if demoted.contains d = true then some uid else some d
        rw [if_neg (by rw [hdf]; exact Bool.false_ne_true)]

/-- With a single-identifier request all candidates coincide (all matched rows
lie in one group). -/
lemma candidates_single {s : Store} (hInv : StoreInv s) {e p : Option String}
    (hsingle : e = none ∨ p = none) {c1 c2 : Contact}
    (h1 : c1 ∈ loadCandidates s e p) (h2 : c2 ∈ loadCandidates s e p) : c1 = c2 := by
  rcases candidate_origin c1 h1 with ⟨m1, hm1, hl1, hmm1, hcan1⟩
  rcases candidate_origin c2 h2 with ⟨m2, hm2, hl2, hmm2, hcan2⟩
  have hshare : sharesIdentifier m1.node m2.node = true := by
    rcases matchesIdentifiers_iff.mp hmm1 with ⟨ev, he, h1e⟩ | ⟨pv, hp, h1p⟩
    · rcases matchesIdentifiers_iff.mp hmm2 with ⟨ev2, he2, h2e⟩ | ⟨pv2, hp2, h2p⟩
      · have hev : ev2 = ev := by
          rw [he] at he2
          exact (Option.some.inj he2).symm
        exact shares_of_eq_email h1e (hev ▸ h2e)
      · rcases hsingle with hs | hs
        · rw [hs] at he; cases he
        · rw [hs] at hp2; cases hp2
    · rcases matchesIdentifiers_iff.mp hmm2 with ⟨ev2, he2, h2e⟩ | ⟨pv2, hp2, h2p⟩
      · rcases hsingle with hs | hs
        · rw [hs] at he2; cases he2
        · rw [hs] at hp; cases hp
      · have hpv : pv2 = pv := by
          rw [hp] at hp2
          exact (Option.some.inj hp2).symm
        exact shares_of_eq_phone h1p (hpv ▸ h2p)
  have hcan := canon_eq_of_shares hInv hm1 hl1 hm2 hl2 hshare
  rw [hcan1, hcan2] at hcan
  exact id_inj hInv.nodupIds (candidate_mem c1 h1).1 (candidate_mem c2 h2).1 (Option.some.inj hcan)

/-- When at least two candidates exist, no single row of the merged group
satisfies both request fields (such a row would have joined the two groups
already, contradicting their distinct canonicals). -/
lemma exactMatch_false_of_two {s : Store} (hInv : StoreInv s) {e p : Option String}
    {u r : Contact} {rest' : List Contact}
    (hcands : loadCandidates s e p = u :: r :: rest') :
    exactMatchInGroup e p
      (queryAllLinkedContacts (mergeStore s u.id ((r :: rest').map (fun c => c.id))) u.id)
      = false := by
  have hund := loadCandidates_ids_nodup s e p
  rw [hcands] at hund
  simp only [List.map_cons, List.nodup_cons, List.mem_cons] at hund
  have huid : u.id ∉ (r :: rest').map (fun c => c.id) := by
    intro hmem
    simp only [List.map_cons, List.mem_cons] at hmem
    rcases hmem with hmem | hmem
    · exact hund.1 (Or.inl hmem)
    · exact hund.1 (Or.inr (by simpa using hmem))
  have hune : u.id ≠ r.id := fun hcontra => hund.1 (Or.inl hcontra)
  cases hEM : exactMatchInGroup e p
      (queryAllLinkedContacts (mergeStore s u.id ((r :: rest').map (fun c => c.id))) u.id) with
  | false => rfl
  | true =>
    exfalso
    unfold exactMatchInGroup at hEM
    rcases List.any_eq_true.mp hEM with ⟨g, hg, hgmatch⟩
    rcases (Bool.and_eq_true _ _).mp hgmatch with ⟨hge, hgp⟩
    rcases mem_queryAllLinkedContacts.mp hg with ⟨hgmem, _, hglive⟩
    rw [mergeStore_contacts hInv.nodupIds huid] at hgmem
    rcases List.mem_map.mp hgmem with ⟨c0, hc0, hc0g⟩
    have hc0live : isLive c0 = true := by
      rw [← mergeRow_isLive u.id ((r :: rest').map (fun c => c.id)) c0, hc0g]; exact hglive
    have hc0e : requestFieldMatches e c0.email = true := by
      rw [← mergeRow_email u.id ((r :: rest').map (fun c => c.id)) c0, hc0g]; exact hge
    have hc0p : requestFieldMatches p c0.phoneNumber = true := by
      rw [← mergeRow_phoneNumber u.id ((r :: rest').map (fun c => c.id)) c0, hc0g]; exact hgp
    rcases candidate_origin u (by rw [hcands]; exact List.mem_cons_self _ _)
      with ⟨mu, hmu, hmul, hmum, hmucan⟩
    rcases candidate_origin r
        (by rw [hcands]; exact List.mem_cons_of_mem _ (List.mem_cons_self _ _))
      with ⟨mr, hmr, hmrl, hmrm, hmrcan⟩
    have h1 := canon_eq_of_shares hInv hc0 hc0live hmu hmul
      (shares_of_matched_pair hc0e hc0p hmum)
    have h2 := canon_eq_of_shares hInv hc0 hc0live hmr hmrl
      (shares_of_matched_pair hc0e hc0p hmrm)
    rw [hmucan] at h1
    rw [hmrcan] at h2
    rw [h1] at h2
    exact hune (Option.some.inj h2)

lemma canonicalIdOf_mergeRow_redirect {s : Store} (hInv : StoreInv s) {uid : Nat}
    {demoted : List Nat}
    (hdem : ∀ d ∈ demoted, ∃ r ∈ s.contacts, r.id = d ∧ isLive r = true ∧ r.linkPrecedence = .primary)
    {c : Contact} (hc : c ∈ s.contacts) (hlive : isLive c = true) :
    canonicalIdOf (mergeRow uid demoted c) = redirectCanon uid demoted (canonicalIdOf c) := by
  rw [canonicalIdOf_mergeRow hInv hdem hc hlive]
  cases canonicalIdOf c <;> rfl

lemma canon_lt_nextId {s : Store} (hInv : StoreInv s) {c : Contact} (hc : c ∈ s.contacts)
    (hl : isLive c = true) {k : Nat} (hk : canonicalIdOf c = some k) : k < s.nextId := by
  rcases canonicalRecord hInv hc hl with ⟨q, hq, _, _, hcan⟩
  rw [hk] at hcan
  rw [Option.some.inj hcan]
  exact hInv.idLt q hq

/-! ### Preservation of the invariants: fresh-canonical branch -/

lemma storeInv_identifyBody_nil {s : Store} (hInv : StoreInv s) {req : IdentifyRequest}
    (hcands : loadCandidates s req.email req.phoneNumber = []) :
    StoreInv (identifyBody req s).1 := by
  rw [identifyBody_nil hcands]
  have hnval : (createContact s ⟨req.email, req.phoneNumber, none, .primary⟩).2
      = ⟨s.nextId, req.phoneNumber, req.email, none, .primary, s.now, none⟩ := rfl
  set n : Contact := ⟨s.nextId, req.phoneNumber, req.email, none, .primary, s.now, none⟩ with hn
  have hcont : ((createContact s ⟨req.email, req.phoneNumber, none, .primary⟩).1).contacts
      = s.contacts ++ [n] := rfl
  have hnext : ((createContact s ⟨req.email, req.phoneNumber, none, .primary⟩).1).nextId
      = s.nextId + 1 := rfl
  have hnow : ((createContact s ⟨req.email, req.phoneNumber, none, .primary⟩).1).now
      = s.now + 1 := rfl
  have hnodes : nodesOf (createContact s ⟨req.email, req.phoneNumber, none, .primary⟩).1
      = nodesOf s ++ [n.node] := nodesOf_createContact s _
  have hnomatch : ∀ m ∈ s.contacts, isLive m = true →
      matchesIdentifiers req.email req.phoneNumber m = false := by
    intro m hm hml
    cases hmm : matchesIdentifiers req.email req.phoneNumber m
    · rfl
    · exfalso
      rcases canonicalRecord hInv hm hml with ⟨q, hq, hql, hqp, hcan⟩
      have hq2 := candidate_complete hInv.nodupIds hm hml hmm hq hql hqp hcan
      rw [hcands] at hq2
      cases hq2
  have hnnode : n.node = ⟨s.nextId, req.email, req.phoneNumber⟩ := rfl
  have hnshare : ∀ x ∈ nodesOf s, sharesIdentifier x n.node = false := by
    intro x hx
    rcases mem_nodesOf hx with ⟨m, hm, hml, hxm⟩
    rw [← hxm, hnnode, sharesIdentifier_newNode]
    exact hnomatch m hm hml
  have hnewnotin : n.node ∉ nodesOf s := by
    intro hmem
    rcases mem_nodesOf hmem with ⟨m, hm, _, hxm⟩
    have hmid : m.id = s.nextId := congrArg Node.id hxm
    exact absurd (hInv.idLt m hm) (by rw [hmid]; exact lt_irrefl _)
  have hreach2 : ∀ x y, reach (nodesOf s ++ [n.node]) x y →
      reach (nodesOf s) x y ∨ (x = n.node ∧ y = n.node) := by
    intro x y h
    induction h with
    | refl => exact Or.inl Relation.ReflTransGen.refl
    | tail h1 hs ih =>
      rcases hs with ⟨hbmem, hcmem, hsh⟩
      rcases List.mem_append.mp hcmem with hcm | hcm
      · rcases List.mem_append.mp hbmem with hbm | hbm
        · rcases ih with ih | ⟨hx1, hx2⟩
          · exact Or.inl (ih.tail ⟨hbm, hcm, hsh⟩)
          · rw [hx2] at hbm
            exact absurd hbm hnewnotin
        · have hbn := List.mem_singleton.mp hbm
          rw [hbn] at hsh
          exact absurd (sharesIdentifier_symm hsh)
            (by rw [hnshare _ hcm]; exact Bool.false_ne_true)
      · have hcn := List.mem_singleton.mp hcm
        rcases List.mem_append.mp hbmem with hbm | hbm
        · rw [hcn] at hsh
          exact absurd hsh (by rw [hnshare _ hbm]; exact Bool.false_ne_true)
        · have hbn := List.mem_singleton.mp hbm
          rcases ih with ih | ⟨hx1, _⟩
          · rw [hbn] at ih
            rcases reach_mem ih with heq | ⟨_, hmem⟩
            · exact Or.inr ⟨heq, hcn⟩
            · exact absurd hmem hnewnotin
          · exact Or.inr ⟨hx1, hcn⟩
  have hnid : n.id = s.nextId := rfl
  have holdid : ∀ c ∈ s.contacts, c.id ≠ s.nextId := by
    intro c hc hcontra
    exact absurd (hInv.idLt c hc) (by rw [hcontra]; exact lt_irrefl _)
  have holdnode : ∀ c ∈ s.contacts, isLive c = true → c.node ≠ n.node := by
    intro c hc _ hcontra
    exact holdid c hc (congrArg Node.id hcontra)
  refine ⟨?_, ?_, ?_, ?_, ?_, ?_, ?_⟩
  · -- nodupIds
    rw [hcont, List.map_append, List.nodup_append]
    refine ⟨hInv.nodupIds, List.nodup_singleton _, ?_⟩
    intro a ha hb
    rcases List.mem_map.mp ha with ⟨c, hc, hci⟩
    have hb2 : a = n.id := by
      simpa using hb
    exact holdid c hc (by rw [hci, hb2, hnid])
  · -- idLt
    rw [hcont, hnext]
    intro c hc
    rcases List.mem_append.mp hc with hc | hc
    · exact Nat.lt_succ_of_lt (hInv.idLt c hc)
    · rw [List.mem_singleton.mp hc, hnid]
      exact Nat.lt_succ_self _
  · -- createdLt
    rw [hcont, hnow]
    intro c hc
    rcases List.mem_append.mp hc with hc | hc
    · exact Nat.lt_succ_of_lt (hInv.createdLt c hc)
    · rw [List.mem_singleton.mp hc]
      exact Nat.lt_succ_self _
  · -- primNoLink
    rw [hcont]
    intro c hc hcl hcp
    rcases List.mem_append.mp hc with hc | hc
    · exact hInv.primNoLink c hc hcl hcp
    · rw [List.mem_singleton.mp hc]
  · -- flat
    rw [hcont]
    intro c hc hcl hcp
    rcases List.mem_append.mp hc with hc | hc
    · rcases hInv.flat c hc hcl hcp with ⟨q, hq, hql, hcq, hqp⟩
      exact ⟨q, List.mem_append.mpr (Or.inl hq), hql, hcq, hqp⟩
    · rw [List.mem_singleton.mp hc] at hcp
      cases hcp
  · -- connIff
    rw [hcont]
    intro a ha b hb hla hlb
    rw [hnodes]
    rcases List.mem_append.mp ha with ha | ha
    · rcases List.mem_append.mp hb with hb | hb
      · constructor
        · intro hr
          rcases hreach2 _ _ hr with hr | ⟨ha2, _⟩
          · exact (hInv.connIff a ha b hb hla hlb).mp hr
          · exact absurd ha2 (holdnode a ha hla)
        · intro hcan
          exact reach_mono (fun x hx => List.mem_append.mpr (Or.inl hx))
            ((hInv.connIff a ha b hb hla hlb).mpr hcan)
      · rw [List.mem_singleton.mp hb]
        constructor
        · intro hr
          rcases hreach2 _ _ hr with hr | ⟨ha2, _⟩
          · rcases reach_mem hr with heq | ⟨_, hmem⟩
            · exact absurd heq (holdnode a ha hla)
            · exact absurd hmem hnewnotin
          · exact absurd ha2 (holdnode a ha hla)
        · intro hcan
          exfalso
          have hncanon : canonicalIdOf n = some s.nextId := rfl
          rw [hncanon] at hcan
          exact absurd (canon_lt_nextId hInv ha hla hcan) (lt_irrefl _)
    · rw [List.mem_singleton.mp ha]
      rcases List.mem_append.mp hb with hb | hb
      · constructor
        · intro hr
          rcases hreach2 _ _ (reach_symm hr) with hr2 | ⟨hb2, _⟩
          · rcases reach_mem hr2 with heq | ⟨_, hmem⟩
            · exact absurd heq (holdnode b hb hlb)
            · exact absurd hmem hnewnotin
          · exact absurd hb2 (holdnode b hb hlb)
        · intro hcan
          exfalso
          have hncanon : canonicalIdOf n = some s.nextId := rfl
          rw [hncanon] at hcan
          exact absurd (canon_lt_nextId hInv hb hlb hcan.symm) (lt_irrefl _)
      · rw [List.mem_singleton.mp hb]
        constructor
        · intro _
          rfl
        · intro _
          exact Relation.ReflTransGen.refl
  · -- canonMin
    rw [hcont]
    intro c hc q hq hcl hql hcan hqp
    rcases List.mem_append.mp hc with hc | hc
    · rcases List.mem_append.mp hq with hq | hq
      · exact hInv.canonMin c hc q hq hcl hql hcan hqp
      · exfalso
        rw [List.mem_singleton.mp hq] at hcan
        exact absurd (canon_lt_nextId hInv hc hcl hcan) (lt_irrefl _)
    · rcases List.mem_append.mp hq with hq | hq
      · exfalso
        rw [List.mem_singleton.mp hc] at hcan
        have hncanon : canonicalIdOf n = some s.nextId := rfl
        rw [hncanon] at hcan
        have : q.id = s.nextId := (Option.some.inj hcan).symm
        exact holdid q hq this
      · rw [List.mem_singleton.mp hc, List.mem_singleton.mp hq]

/-! ### Preservation of the invariants: merge branch -/

lemma mergeRow_eq_self_of_primary {s : Store} (hInv : StoreInv s) {uid : Nat} {demoted : List Nat}
    {c : Contact} (hc : c ∈ s.contacts) (hl : isLive c = true)
    (hp : (mergeRow uid demoted c).linkPrecedence = .primary) :
    mergeRow uid demoted c = c ∧ c.linkPrecedence = .primary := by
  by_cases h0 : demoted.contains c.id = true
  · rw [mergeRow_of_demoted h0] at hp
    cases hp
  · have h0f := bool_eq_false_of_not h0
    by_cases hR : (isLive c && pointsAtDemoted demoted c) = true
    · exfalso
      rw [mergeRow_of_relink h0f hR] at hp
      have hcp : c.linkPrecedence = .primary := hp
      have hnl := hInv.primNoLink c hc hl hcp
      have hpd : pointsAtDemoted demoted c = false := by
        unfold pointsAtDemoted; rw [hnl]
      rw [Bool.and_eq_true, hpd] at hR
      exact Bool.noConfusion hR.2
    · have hR2 := bool_eq_false_of_not hR
      rw [mergeRow_of_other h0f hR2] at hp ⊢
      exact ⟨rfl, hp⟩

lemma redirectCanon_some (uid : Nat) (demoted : List Nat) (k : Nat) :
    redirectCanon uid demoted (some k)
      = if demoted.contains k = true then some uid else some k := rfl

lemma redirectCanon_none (uid : Nat) (demoted : List Nat) :
    redirectCanon uid demoted none = none := rfl

lemma redirectCanon_eq_uid_iff {uid : Nat} {demoted : List Nat} {kk : Option Nat}
    (huid : uid ∉ demoted) :
    redirectCanon uid demoted kk = some uid ↔ ∃ k, kk = some k ∧ (k = uid ∨ k ∈ demoted) := by
  cases kk with
  | none =>
    constructor
    · intro h; cases h
    · rintro ⟨k, hk, _⟩; cases hk
  | some k =>
    rw [redirectCanon_some]
    by_cases hd : demoted.contains k = true
    · rw [if_pos hd]
      exact ⟨fun _ => ⟨k, rfl, Or.inr (mem_of_contains hd)⟩, fun _ => rfl⟩
    · rw [if_neg hd]
      constructor
      · intro h
        exact ⟨k, rfl, Or.inl (Option.some.inj h)⟩
      · rintro ⟨k2, hk2, hor⟩
        have hkk : k2 = k := (Option.some.inj hk2).symm
        subst hkk
        rcases hor with rfl | hmem
        · rfl
        · exact absurd (contains_of_mem hmem) hd

lemma redirectCanon_eq_self {uid : Nat} {demoted : List Nat} {kk : Option Nat}
    (h : ¬ redirectCanon uid demoted kk = some uid) :
    redirectCanon uid demoted kk = kk := by
  cases kk with
  | none => rfl
  | some k =>
    rw [redirectCanon_some] at h ⊢
    by_cases hd : demoted.contains k = true
    · rw [if_pos hd] at h
      exact absurd rfl h
    · rw [if_neg hd]

/-- Merging all candidate groups into the oldest candidate and recording the
submitted pair as a new secondary of the survivor preserves the invariants. -/
lemma storeInv_merge_create {s : Store} (hInv : StoreInv s) {req : IdentifyRequest}
    {u : Contact} {rest : List Contact}
    (hcands : loadCandidates s req.email req.phoneNumber = u :: rest) :
    StoreInv (createContact (mergeStore s u.id (rest.map (fun c => c.id)))
      ⟨req.email, req.phoneNumber, some u.id, .secondary⟩).1 := by
  have hu := candidate_mem u (by rw [hcands]; exact List.mem_cons_self _ _)
  have humem := hu.1
  have hulive := hu.2.1
  have huprim := hu.2.2
  have hund := loadCandidates_ids_nodup s req.email req.phoneNumber
  rw [hcands, List.map_cons, List.nodup_cons] at hund
  have hudem : u.id ∉ rest.map (fun c => c.id) := hund.1
  set demoted : List Nat := rest.map (fun c => c.id) with hdemdef
  have hdemprops : ∀ d ∈ demoted,
      ∃ r ∈ s.contacts, r.id = d ∧ isLive r = true ∧ r.linkPrecedence = .primary := by
    intro d hd
    rw [hdemdef] at hd
    rcases List.mem_map.mp hd with ⟨r, hr, hrd⟩
    have hrc := candidate_mem r (by rw [hcands]; exact List.mem_cons_of_mem _ hr)
    exact ⟨r, hrc.1, hrd, hrc.2.1, hrc.2.2⟩
  have hdemrest : ∀ d ∈ demoted, ∃ r ∈ rest, r.id = d := by
    intro d hd
    rw [hdemdef] at hd
    rcases List.mem_map.mp hd with ⟨r, hr, hrd⟩
    exact ⟨r, hr, hrd⟩
  set s1 := mergeStore s u.id demoted with hs1def
  have hs1c : s1.contacts = s.contacts.map (mergeRow u.id demoted) :=
    mergeStore_contacts hInv.nodupIds hudem
  have hs1nodes : nodesOf s1 = nodesOf s := nodesOf_mergeStore hInv.nodupIds hudem
  have hs1next : s1.nextId = s.nextId := mergeStore_nextId s u.id demoted
  have hs1now : s1.now = s.now := mergeStore_now s u.id demoted
  set n : Contact := (createContact s1 ⟨req.email, req.phoneNumber, some u.id, .secondary⟩).2
    with hndef
  have hnfields : n = ⟨s1.nextId, req.phoneNumber, req.email, some u.id, .secondary, s1.now, none⟩ :=
    rfl
  have hnid : n.id = s.nextId := by rw [hnfields]; exact hs1next
  have hncreated : n.createdAt = s.now := by rw [hnfields]; exact hs1now
  have hnlive : isLive n = true := rfl
  have hnsec : n.linkPrecedence = .secondary := rfl
  have hnlinked : n.linkedId = some u.id := rfl
  have hncanon : canonicalIdOf n = some u.id := rfl
  have hnnode : n.node = ⟨s1.nextId, req.email, req.phoneNumber⟩ := rfl
  set s2 := (createContact s1 ⟨req.email, req.phoneNumber, some u.id, .secondary⟩).1 with hs2def
  have hcont : s2.contacts = s.contacts.map (mergeRow u.id demoted) ++ [n] := by
    rw [hs2def, createContact_contacts, hs1c]
  have hs2next : s2.nextId = s.nextId + 1 := by rw [hs2def, createContact_nextId, hs1next]
  have hs2now : s2.now = s.now + 1 := by rw [hs2def, createContact_now, hs1now]
  have hnodes : nodesOf s2 = nodesOf s ++ [n.node] := by
    rw [hs2def, nodesOf_createContact, hs1nodes]
  have holdid : ∀ c ∈ s.contacts, c.id ≠ s.nextId := fun c hc hcontra =>
    absurd (hInv.idLt c hc) (by rw [hcontra]; exact lt_irrefl _)
  have hcanon2 : ∀ c ∈ s.contacts, isLive c = true →
      canonicalIdOf (mergeRow u.id demoted c) = redirectCanon u.id demoted (canonicalIdOf c) :=
    fun c hc hl => canonicalIdOf_mergeRow_redirect hInv hdemprops hc hl
  have humerge : mergeRow u.id demoted u = u := by
    have h1 : demoted.contains u.id = false := not_contains_of_not_mem hudem
    have h2 : pointsAtDemoted demoted u = false := by
      unfold pointsAtDemoted
      rw [hInv.primNoLink u humem hulive huprim]
    exact mergeRow_of_other h1 (by rw [h2, Bool.and_false])
  have hK1 : ∀ m ∈ s.contacts, isLive m = true →
      matchesIdentifiers req.email req.phoneNumber m = true →
      ∃ k, canonicalIdOf m = some k ∧ (k = u.id ∨ k ∈ demoted) := by
    intro m hm hml hmm
    rcases canonicalRecord hInv hm hml with ⟨q, hq, hql, hqp, hcan⟩
    have hqc := candidate_complete hInv.nodupIds hm hml hmm hq hql hqp hcan
    rw [hcands] at hqc
    rcases List.mem_cons.mp hqc with rfl | hqr
    · exact ⟨q.id, hcan, Or.inl rfl⟩
    · refine ⟨q.id, hcan, Or.inr ?_⟩
      rw [hdemdef]
      exact List.mem_map.mpr ⟨q, hqr, rfl⟩
  have hK2 : ∀ k, (k = u.id ∨ k ∈ demoted) →
      ∃ m ∈ s.contacts, isLive m = true ∧ matchesIdentifiers req.email req.phoneNumber m = true ∧
        canonicalIdOf m = some k := by
    intro k hk
    rcases hk with rfl | hk
    · exact candidate_origin u (by rw [hcands]; exact List.mem_cons_self _ _)
    · rcases hdemrest k hk with ⟨r, hr, hrk⟩
      have horig := candidate_origin r (by rw [hcands]; exact List.mem_cons_of_mem _ hr)
      rw [hrk] at horig
      exact horig
  have hsep : ∀ a ∈ s2.contacts, isLive a = true → ∀ b ∈ s2.contacts, isLive b = true →
      sharesIdentifier a.node b.node = true → canonicalIdOf a = canonicalIdOf b := by
    intro a ha hla b hb hlb hsh
    rw [hcont] at ha hb
    rcases List.mem_append.mp ha with ha | ha
    · rcases List.mem_map.mp ha with ⟨a0, ha0, ha0a⟩
      have hal0 : isLive a0 = true := by
        rw [← mergeRow_isLive u.id demoted a0, ha0a]; exact hla
      rcases List.mem_append.mp hb with hb | hb
      · rcases List.mem_map.mp hb with ⟨b0, hb0, hb0b⟩
        have hbl0 : isLive b0 = true := by
          rw [← mergeRow_isLive u.id demoted b0, hb0b]; exact hlb
        have hsh0 : sharesIdentifier a0.node b0.node = true := by
          rw [← mergeRow_node u.id demoted a0, ← mergeRow_node u.id demoted b0, ha0a, hb0b]
          exact hsh
        have hc00 := canon_eq_of_shares hInv ha0 hal0 hb0 hbl0 hsh0
        rw [← ha0a, ← hb0b, hcanon2 a0 ha0 hal0, hcanon2 b0 hb0 hbl0, hc00]
      · have hbn := List.mem_singleton.mp hb
        subst hbn
        have heq : sharesIdentifier a0.node n.node
            = matchesIdentifiers req.email req.phoneNumber a0 := by
          rw [hnnode]; exact sharesIdentifier_newNode
        have hmm : matchesIdentifiers req.email req.phoneNumber a0 = true := by
          rw [← heq, ← mergeRow_node u.id demoted a0, ha0a]
          exact hsh
        rcases hK1 a0 ha0 hal0 hmm with ⟨k, hk, hkor⟩
        rw [← ha0a, hcanon2 a0 ha0 hal0, hncanon]
        exact (redirectCanon_eq_uid_iff hudem).mpr ⟨k, hk, hkor⟩
    · have han := List.mem_singleton.mp ha
      subst han
      rcases List.mem_append.mp hb with hb | hb
      · rcases List.mem_map.mp hb with ⟨b0, hb0, hb0b⟩
        have hbl0 : isLive b0 = true := by
          rw [← mergeRow_isLive u.id demoted b0, hb0b]; exact hlb
        have heq : sharesIdentifier b0.node n.node
            = matchesIdentifiers req.email req.phoneNumber b0 := by
          rw [hnnode]; exact sharesIdentifier_newNode
        have hmm : matchesIdentifiers req.email req.phoneNumber b0 = true := by
          rw [← heq, ← mergeRow_node u.id demoted b0, hb0b]
          exact sharesIdentifier_symm hsh
        rcases hK1 b0 hb0 hbl0 hmm with ⟨k, hk, hkor⟩
        rw [hncanon, ← hb0b, hcanon2 b0 hb0 hbl0]
        exact ((redirectCanon_eq_uid_iff hudem).mpr ⟨k, hk, hkor⟩).symm
      · rw [List.mem_singleton.mp hb]
  have hnodup2 : (s2.contacts.map Contact.id).Nodup := by
    rw [hcont, List.map_append, List.map_map]
    have hmapid : s.contacts.map (Contact.id ∘ mergeRow u.id demoted)
        = s.contacts.map Contact.id :=
      List.map_congr_left (fun c _ => by simp only [Function.comp]; rw [mergeRow_id])
    rw [hmapid, List.nodup_append]
    refine ⟨hInv.nodupIds, List.nodup_singleton _, ?_⟩
    intro x hx hx2
    rcases List.mem_map.mp hx with ⟨c, hc, hci⟩
    have hx3 : x = n.id := by simpa using hx2
    exact holdid c hc (by rw [hci, hx3, hnid])
  have hmemdec : ∀ a, a ∈ s2.contacts → isLive a = true → findById s2 a.id = some a :=
    fun a ha hl => findById_of_mem hnodup2 ha hl rfl
  have hsepN : ∀ x ∈ nodesOf s2, ∀ y ∈ nodesOf s2, sharesIdentifier x y = true →
      ((findById s2 x.id).map canonicalIdOf) = ((findById s2 y.id).map canonicalIdOf) := by
    intro x hx y hy hsh
    rcases mem_nodesOf hx with ⟨a, ha, hal, hax⟩
    rcases mem_nodesOf hy with ⟨b, hb, hbl, hby⟩
    rw [← hax, ← hby]
    show ((findById s2 a.id).map canonicalIdOf) = ((findById s2 b.id).map canonicalIdOf)
    rw [hmemdec a ha hal, hmemdec b hb hbl]
    have hcan := hsep a ha hal b hb hbl (by rw [hax, hby]; exact hsh)
    rw [Option.map_some', Option.map_some', hcan]
  have hreachn : ∀ a0 ∈ s.contacts, isLive a0 = true →
      redirectCanon u.id demoted (canonicalIdOf a0) = some u.id →
      reach (nodesOf s2) a0.node n.node := by
    intro a0 ha0 hal hred
    rcases (redirectCanon_eq_uid_iff hudem).mp hred with ⟨k, hk, hkor⟩
    rcases hK2 k hkor with ⟨m, hm, hml, hmm, hmc⟩
    have hr0 : reach (nodesOf s) a0.node m.node := by
      refine (hInv.connIff a0 ha0 m hm hal hml).mpr ?_
      rw [hk, hmc]
    have hr1 : reach (nodesOf s2) a0.node m.node := by
      rw [hnodes]
      exact reach_mono (fun x hx => List.mem_append.mpr (Or.inl hx)) hr0
    refine hr1.tail ⟨?_, ?_, ?_⟩
    · rw [hnodes]; exact List.mem_append.mpr (Or.inl (node_mem_nodesOf hm hml))
    · rw [hnodes]; exact List.mem_append.mpr (Or.inr (List.mem_singleton.mpr rfl))
    · have heq : sharesIdentifier m.node n.node
          = matchesIdentifiers req.email req.phoneNumber m := by
        rw [hnnode]; exact sharesIdentifier_newNode
      rw [heq]; exact hmm
  have hconn : ∀ a ∈ s2.contacts, ∀ b ∈ s2.contacts, isLive a = true → isLive b = true →
      (reach (nodesOf s2) a.node b.node ↔ canonicalIdOf a = canonicalIdOf b) := by
    intro a ha b hb hla hlb
    constructor
    · intro hr
      have h1 := reach_constant (fun x => (findById s2 x.id).map canonicalIdOf) hsepN hr
      have h2 : some (canonicalIdOf a) = some (canonicalIdOf b) := by
        calc some (canonicalIdOf a) = (findById s2 a.id).map canonicalIdOf := by
              rw [hmemdec a ha hla, Option.map_some']
        _ = (findById s2 b.id).map canonicalIdOf := h1
        _ = some (canonicalIdOf b) := by rw [hmemdec b hb hlb, Option.map_some']
      exact Option.some.inj h2
    · intro hcan
      rw [hcont] at ha hb
      by_cases hua : canonicalIdOf a = some u.id
      · have hub : canonicalIdOf b = some u.id := by rw [← hcan]; exact hua
        have hra : reach (nodesOf s2) a.node n.node := by
          rcases List.mem_append.mp ha with ha | ha
          · rcases List.mem_map.mp ha with ⟨a0, ha0, ha0a⟩
            have hal0 : isLive a0 = true := by
              rw [← mergeRow_isLive u.id demoted a0, ha0a]; exact hla
            have hred : redirectCanon u.id demoted (canonicalIdOf a0) = some u.id := by
              rw [← hcanon2 a0 ha0 hal0, ha0a]; exact hua
            have hr := hreachn a0 ha0 hal0 hred
            have hnodea : a.node = a0.node := by rw [← ha0a, mergeRow_node]
            rw [hnodea]
            exact hr
          · rw [List.mem_singleton.mp ha]
            exact Relation.ReflTransGen.refl
        have hrb : reach (nodesOf s2) b.node n.node := by
          rcases List.mem_append.mp hb with hb | hb
          · rcases List.mem_map.mp hb with ⟨b0, hb0, hb0b⟩
            have hbl0 : isLive b0 = true := by
              rw [← mergeRow_isLive u.id demoted b0, hb0b]; exact hlb
            have hred : redirectCanon u.id demoted (canonicalIdOf b0) = some u.id := by
              rw [← hcanon2 b0 hb0 hbl0, hb0b]; exact hub
            have hr := hreachn b0 hb0 hbl0 hred
            have hnodeb : b.node = b0.node := by rw [← hb0b, mergeRow_node]
            rw [hnodeb]
            exact hr
          · rw [List.mem_singleton.mp hb]
            exact Relation.ReflTransGen.refl
        exact hra.trans (reach_symm hrb)
      · have hub : ¬ canonicalIdOf b = some u.id := by rw [← hcan]; exact hua
        rcases List.mem_append.mp ha with ha | ha
        swap
        · exfalso; apply hua; rw [List.mem_singleton.mp ha]; exact hncanon
        rcases List.mem_append.mp hb with hb | hb
        swap
        · exfalso; apply hub; rw [List.mem_singleton.mp hb]; exact hncanon
        rcases List.mem_map.mp ha with ⟨a0, ha0, ha0a⟩
        rcases List.mem_map.mp hb with ⟨b0, hb0, hb0b⟩
        have hal0 : isLive a0 = true := by
          rw [← mergeRow_isLive u.id demoted a0, ha0a]; exact hla
        have hbl0 : isLive b0 = true := by
          rw [← mergeRow_isLive u.id demoted b0, hb0b]; exact hlb
        have hcara : canonicalIdOf a = redirectCanon u.id demoted (canonicalIdOf a0) := by
          rw [← ha0a]; exact hcanon2 a0 ha0 hal0
        have hcarb : canonicalIdOf b = redirectCanon u.id demoted (canonicalIdOf b0) := by
          rw [← hb0b]; exact hcanon2 b0 hb0 hbl0
        have hselfa : redirectCanon u.id demoted (canonicalIdOf a0) = canonicalIdOf a0 :=
          redirectCanon_eq_self (by rw [← hcara]; exact hua)
        have hselfb : redirectCanon u.id demoted (canonicalIdOf b0) = canonicalIdOf b0 :=
          redirectCanon_eq_self (by rw [← hcarb]; exact hub)
        have hc0 : canonicalIdOf a0 = canonicalIdOf b0 := by
          rw [← hselfa, ← hselfb, ← hcara, ← hcarb]; exact hcan
        have hr0 := (hInv.connIff a0 ha0 b0 hb0 hal0 hbl0).mpr hc0
        have hnodea : a.node = a0.node := by rw [← ha0a, mergeRow_node]
        have hnodeb : b.node = b0.node := by rw [← hb0b, mergeRow_node]
        rw [hnodea, hnodeb, hnodes]
        exact reach_mono (fun x hx => List.mem_append.mpr (Or.inl hx)) hr0
  have hq_eq_u : ∀ q ∈ s2.contacts, isLive q = true → q.linkPrecedence = .primary →
      q.id = u.id → q = u := by
    intro q hq hql hqp hqi
    rw [hcont] at hq
    rcases List.mem_append.mp hq with hq | hq
    · rcases List.mem_map.mp hq with ⟨q0, hq0, hq0q⟩
      have hql0 : isLive q0 = true := by
        rw [← mergeRow_isLive u.id demoted q0, hq0q]; exact hql
      have hqp0 : (mergeRow u.id demoted q0).linkPrecedence = .primary := by
        rw [hq0q]; exact hqp
      rcases mergeRow_eq_self_of_primary hInv hq0 hql0 hqp0 with ⟨hmr, _⟩
      have hq0i : q0.id = u.id := by rw [← hqi, ← hq0q, mergeRow_id]
      have hq0u : q0 = u := id_inj hInv.nodupIds hq0 humem hq0i
      rw [← hq0q, hmr, hq0u]
    · exfalso
      have hqn := List.mem_singleton.mp hq
      rw [hqn] at hqp
      exact LinkPrecedence.noConfusion (hnsec.symm.trans hqp)
  have hcmin : ∀ c ∈ s2.contacts, ∀ q ∈ s2.contacts, isLive c = true → isLive q = true →
      canonicalIdOf c = some q.id → q.linkPrecedence = .primary →
      q.createdAt ≤ c.createdAt := by
    intro c hc q hq hcl hql hccan hqp
    by_cases hcu : canonicalIdOf c = some u.id
    · have hqi : q.id = u.id := Option.some.inj (hccan.symm.trans hcu)
      have hqu : q = u := hq_eq_u q hq hql hqp hqi
      rw [hqu]
      rw [hcont] at hc
      rcases List.mem_append.mp hc with hc | hc
      · rcases List.mem_map.mp hc with ⟨c0, hc0, hc0c⟩
        have hcl0 : isLive c0 = true := by
          rw [← mergeRow_isLive u.id demoted c0, hc0c]; exact hcl
        have hred : redirectCanon u.id demoted (canonicalIdOf c0) = some u.id := by
          rw [← hcanon2 c0 hc0 hcl0, hc0c]; exact hcu
        rcases (redirectCanon_eq_uid_iff hudem).mp hred with ⟨k, hk, hkor⟩
        have hck : u.createdAt ≤ c0.createdAt := by
          rcases hkor with rfl | hkd
          · exact hInv.canonMin c0 hc0 u humem hcl0 hulive hk huprim
          · rcases hdemrest k hkd with ⟨r, hr, hrk⟩
            have hrc := candidate_mem r (by rw [hcands]; exact List.mem_cons_of_mem _ hr)
            have h1 : r.createdAt ≤ c0.createdAt := by
              refine hInv.canonMin c0 hc0 r hrc.1 hcl0 hrc.2.1 ?_ hrc.2.2
              rw [hk, hrk]
            have h2 : u.createdAt ≤ r.createdAt :=
              loadCandidates_head_min hcands r
                (by rw [hcands]; exact List.mem_cons_of_mem _ hr)
            exact le_trans h2 h1
        calc u.createdAt ≤ c0.createdAt := hck
        _ = c.createdAt := by rw [← hc0c, mergeRow_createdAt]
      · have hcn := List.mem_singleton.mp hc
        rw [hcn, hncreated]
        exact le_of_lt (hInv.createdLt u humem)
    · rw [hcont] at hc hq
      rcases List.mem_append.mp hc with hc | hc
      swap
      · exfalso; apply hcu; rw [List.mem_singleton.mp hc]; exact hncanon
      rcases List.mem_map.mp hc with ⟨c0, hc0, hc0c⟩
      have hcl0 : isLive c0 = true := by
        rw [← mergeRow_isLive u.id demoted c0, hc0c]; exact hcl
      have hcar : canonicalIdOf c = redirectCanon u.id demoted (canonicalIdOf c0) := by
        rw [← hc0c]; exact hcanon2 c0 hc0 hcl0
      have hself : redirectCanon u.id demoted (canonicalIdOf c0) = canonicalIdOf c0 :=
        redirectCanon_eq_self (by rw [← hcar]; exact hcu)
      have hcc0 : canonicalIdOf c0 = some q.id := by rw [← hself, ← hcar]; exact hccan
      rcases List.mem_append.mp hq with hq | hq
      swap
      · exfalso
        have hqn := List.mem_singleton.mp hq
        rw [hqn] at hqp
        exact LinkPrecedence.noConfusion (hnsec.symm.trans hqp)
      rcases List.mem_map.mp hq with ⟨q0, hq0, hq0q⟩
      have hql0 : isLive q0 = true := by
        rw [← mergeRow_isLive u.id demoted q0, hq0q]; exact hql
      have hqp0 : (mergeRow u.id demoted q0).linkPrecedence = .primary := by
        rw [hq0q]; exact hqp
      rcases mergeRow_eq_self_of_primary hInv hq0 hql0 hqp0 with ⟨_, hq0p⟩
      have hqid : q.id = q0.id := by rw [← hq0q, mergeRow_id]
      have hmin := hInv.canonMin c0 hc0 q0 hq0 hcl0 hql0 (by rw [hcc0, hqid]) hq0p
      calc q.createdAt = q0.createdAt := by rw [← hq0q, mergeRow_createdAt]
      _ ≤ c0.createdAt := hmin
      _ = c.createdAt := by rw [← hc0c, mergeRow_createdAt]
  have humems2 : u ∈ s2.contacts := by
    rw [hcont]
    exact List.mem_append.mpr (Or.inl (List.mem_map.mpr ⟨u, humem, humerge⟩))
  have hflat : ∀ c ∈ s2.contacts, isLive c = true → c.linkPrecedence = .secondary →
      ∃ q ∈ s2.contacts, isLive q = true ∧ c.linkedId = some q.id ∧
        q.linkPrecedence = .primary := by
    intro c hc hcl hcp
    rw [hcont] at hc
    rcases List.mem_append.mp hc with hc | hc
    · rcases List.mem_map.mp hc with ⟨c0, hc0, hc0c⟩
      have hcl0 : isLive c0 = true := by
        rw [← mergeRow_isLive u.id demoted c0, hc0c]; exact hcl
      by_cases h0 : demoted.contains c0.id = true
      · refine ⟨u, humems2, hulive, ?_, huprim⟩
        rw [← hc0c, mergeRow_of_demoted h0]
      · have h0f := bool_eq_false_of_not h0
        by_cases hR : (isLive c0 && pointsAtDemoted demoted c0) = true
        · refine ⟨u, humems2, hulive, ?_, huprim⟩
          rw [← hc0c, mergeRow_of_relink h0f hR]
        · have hR2 := bool_eq_false_of_not hR
          have hcc0 : c = c0 := by rw [← hc0c, mergeRow_of_other h0f hR2]
          have hcp0 : c0.linkPrecedence = .secondary := by rw [← hcc0]; exact hcp
          rcases hInv.flat c0 hc0 hcl0 hcp0 with ⟨q0, hq0, hql0, hc0link, hq0p⟩
          have hpd : pointsAtDemoted demoted c0 = false := by
            cases hpd0 : pointsAtDemoted demoted c0
            · rfl
            · exfalso
              rw [hcl0, hpd0] at hR2
              exact Bool.noConfusion hR2
          have hq0nd : demoted.contains q0.id = false := by
            unfold pointsAtDemoted at hpd
            rw [hc0link] at hpd
            exact hpd
          have hq0pd : pointsAtDemoted demoted q0 = false := by
            unfold pointsAtDemoted
            rw [hInv.primNoLink q0 hq0 hql0 hq0p]
          have hq0m : mergeRow u.id demoted q0 = q0 :=
            mergeRow_of_other hq0nd (by rw [hq0pd, Bool.and_false])
          refine ⟨q0, ?_, hql0, ?_, hq0p⟩
          · rw [hcont]
            exact List.mem_append.mpr (Or.inl (List.mem_map.mpr ⟨q0, hq0, hq0m⟩))
          · rw [hcc0]; exact hc0link
    · have hcn := List.mem_singleton.mp hc
      refine ⟨u, humems2, hulive, ?_, huprim⟩
      rw [hcn, hnlinked]
  have hpnl : ∀ c ∈ s2.contacts, isLive c = true → c.linkPrecedence = .primary →
      c.linkedId = none := by
    intro c hc hcl hcp
    rw [hcont] at hc
    rcases List.mem_append.mp hc with hc | hc
    · rcases List.mem_map.mp hc with ⟨c0, hc0, hc0c⟩
      have hcl0 : isLive c0 = true := by
        rw [← mergeRow_isLive u.id demoted c0, hc0c]; exact hcl
      have hcp0 : (mergeRow u.id demoted c0).linkPrecedence = .primary := by
        rw [hc0c]; exact hcp
      rcases mergeRow_eq_self_of_primary hInv hc0 hcl0 hcp0 with ⟨hmr, hc0p⟩
      rw [← hc0c, hmr]
      exact hInv.primNoLink c0 hc0 hcl0 hc0p
    · exfalso
      have hcn := List.mem_singleton.mp hc
      rw [hcn] at hcp
      exact LinkPrecedence.noConfusion (hnsec.symm.trans hcp)
  have hidlt : ∀ c ∈ s2.contacts, c.id < s2.nextId := by
    rw [hcont, hs2next]
    intro c hc
    rcases List.mem_append.mp hc with hc | hc
    · rcases List.mem_map.mp hc with ⟨c0, hc0, hc0c⟩
      rw [← hc0c, mergeRow_id]
      exact Nat.lt_succ_of_lt (hInv.idLt c0 hc0)
    · rw [List.mem_singleton.mp hc, hnid]
      exact Nat.lt_succ_self _
  have hcrlt : ∀ c ∈ s2.contacts, c.createdAt < s2.now := by
    rw [hcont, hs2now]
    intro c hc
    rcases List.mem_append.mp hc with hc | hc
    · rcases List.mem_map.mp hc with ⟨c0, hc0, hc0c⟩
      rw [← hc0c, mergeRow_createdAt]
      exact Nat.lt_succ_of_lt (hInv.createdLt c0 hc0)
    · rw [List.mem_singleton.mp hc, hncreated]
      exact Nat.lt_succ_self _
  exact ⟨hnodup2, hidlt, hcrlt, hpnl, hflat, hconn, hcmin⟩

lemma storeInv_identifyBody_cons {s : Store} (hInv : StoreInv s) {req : IdentifyRequest}
    {u : Contact} {rest : List Contact}
    (hcands : loadCandidates s req.email req.phoneNumber = u :: rest) :
    StoreInv (identifyBody req s).1 := by
  rw [identifyBody_cons hcands]
  show StoreInv
    (decideStore (mergeStore s u.id (rest.map (fun c => c.id))) u.id req.email req.phoneNumber)
  rw [decideStore_eq]
  by_cases hcond : (!exactMatchInGroup req.email req.phoneNumber
      (queryAllLinkedContacts (mergeStore s u.id (rest.map (fun c => c.id))) u.id)
      && (req.email.isSome || req.phoneNumber.isSome)) = true
  · rw [if_pos hcond]
    exact storeInv_merge_create hInv hcands
  · rw [if_neg hcond]
    cases rest with
    | nil =>
      have hemp : ((([] : List Contact)).map (fun c => c.id)).isEmpty = true := rfl
      rw [mergeStore_eq, if_pos hemp]
      exact hInv
    | cons r rest' =>
      exfalso
      apply hcond
      rw [Bool.and_eq_true]
      constructor
      · rw [exactMatch_false_of_two hInv hcands]
        rfl
      · rcases candidate_origin u (by rw [hcands]; exact List.mem_cons_self _ _)
          with ⟨m, _, _, hmm, _⟩
        rcases matchesIdentifiers_iff.mp hmm with ⟨ev, he, _⟩ | ⟨pv, hp, _⟩
        · rw [he]; rfl
        · rw [hp]
          show (req.email.isSome || true) = true
          rw [Bool.or_true]

/-- The body of `identify` preserves the data-model invariants. -/
lemma storeInv_identifyBody {s : Store} (hInv : StoreInv s) (req : IdentifyRequest) :
    StoreInv (identifyBody req s).1 := by
  cases hcands : loadCandidates s req.email req.phoneNumber with
  | nil => exact storeInv_identifyBody_nil hInv hcands
  | cons u rest => exact storeInv_identifyBody_cons hInv hcands

/-- One full `identify` request preserves the data-model invariants. -/
lemma storeInv_runIdentify {s : Store} (hInv : StoreInv s) (req : IdentifyRequest) :
    StoreInv (runIdentify s req) := by
  unfold runIdentify identify
  by_cases h : (req.email.isNone && req.phoneNumber.isNone) = true
  · rw [if_pos h]
    exact hInv
  · rw [if_neg h]
    have heq : (transaction s (fun t => Except.ok (identifyBody req t))).1
        = (identifyBody req s).1 := rfl
    rw [heq]
    exact storeInv_identifyBody hInv req

/-- Any sequence of `identify` requests preserves the data-model invariants. -/
lemma storeInv_runAll {s : Store} (hInv : StoreInv s) (reqs : List IdentifyRequest) :
    StoreInv (runAll s reqs) := by
  induction reqs generalizing s with
  | nil => exact hInv
  | cons r rs ih => exact ih (storeInv_runIdentify hInv r)

lemma uniqueCanonical_of_storeInv {s : Store} (hInv : StoreInv s) : UniqueCanonical s := by
  intro a ha hal
  rcases canonicalRecord hInv ha hal with ⟨q, hq, hql, hqp, hcan⟩
  refine ⟨q.id, ⟨q, hq, rfl, hql, hqp, ?_⟩, ?_⟩
  · refine (hInv.connIff a ha q hq hal hql).mpr ?_
    rw [hcan, canonicalIdOf_primary hqp]
  · intro q2 hq2 hql2 hqp2 hr
    have hc := (hInv.connIff a ha q2 hq2 hal hql2).mp hr
    rw [hcan, canonicalIdOf_primary hqp2] at hc
    exact (Option.some.inj hc).symm

lemma canonicalOldest_of_storeInv {s : Store} (hInv : StoreInv s) : CanonicalOldest s := by
  intro a ha q hq hal hql hqp hr
  have hc := (hInv.connIff a ha q hq hal hql).mp hr
  rw [canonicalIdOf_primary hqp] at hc
  exact hInv.canonMin a ha q hq hal hql hc hqp

lemma flatLinks_of_storeInv {s : Store} (hInv : StoreInv s) : FlatLinks s := hInv.flat

/-! ### Response assembly lemmas -/

lemma sortStrings_sorted (l : List String) :
    List.Pairwise (fun a b => a ≤ b) (sortStrings l) := by
  have h := @List.sorted_mergeSort String (fun a b => decide (a ≤ b))
    (fun a b c hab hbc => by
      simp only [decide_eq_true_eq] at hab hbc ⊢
      exact le_trans hab hbc)
    (fun a b => by
      simp only [Bool.or_eq_true, decide_eq_true_eq]
      exact le_total a b) l
  exact h.imp (fun hd => by simpa using hd)

lemma mem_sortStrings {l : List String} {x : String} : x ∈ sortStrings l ↔ x ∈ l :=
  (List.mergeSort_perm l _).mem_iff

lemma sortStrings_nodup {l : List String} (h : l.Nodup) : (sortStrings l).Nodup :=
  ((List.mergeSort_perm l _).nodup_iff).mpr h

lemma sortNatIds_sorted (l : List Nat) :
    List.Pairwise (fun a b => a ≤ b) (l.mergeSort (fun a b => decide (a ≤ b))) := by
  have h := @List.sorted_mergeSort Nat (fun a b => decide (a ≤ b))
    (fun a b c hab hbc => by
      simp only [decide_eq_true_eq] at hab hbc ⊢
      exact le_trans hab hbc)
    (fun a b => by
      simp only [Bool.or_eq_true, decide_eq_true_eq]
      exact Nat.le_total a b) l
  exact h.imp (fun hd => by simpa using hd)

lemma mem_sortNatIds {l : List Nat} {x : Nat} :
    x ∈ l.mergeSort (fun a b => decide (a ≤ b)) ↔ x ∈ l :=
  (List.mergeSort_perm l _).mem_iff

lemma assembleResponse_primary (s2 : Store) (uid : Nat) :
    (assembleResponse s2 uid).primaryContactId = uid := rfl

lemma assembleResponse_emails (s2 : Store) (uid : Nat) :
    (assembleResponse s2 uid).emails
      = sortStrings (dedupStrings
          ((queryAllLinkedContacts s2 uid).filterMap (fun c => c.email))) := rfl

lemma assembleResponse_phoneNumbers (s2 : Store) (uid : Nat) :
    (assembleResponse s2 uid).phoneNumbers
      = sortStrings (dedupStrings
          ((queryAllLinkedContacts s2 uid).filterMap (fun c => c.phoneNumber))) := rfl

lemma assembleResponse_secondaryIds (s2 : Store) (uid : Nat) :
    (assembleResponse s2 uid).secondaryContactIds
      = (((queryAllLinkedContacts s2 uid).filter
            (fun c => c.linkPrecedence == .secondary && c.linkedId == some uid)).map
          (fun c => c.id)).mergeSort (fun a b => decide (a ≤ b)) := rfl

lemma identify_ok_inv {req : IdentifyRequest} {s s' : Store} {r : IdentifyResponse}
    (h : identify req s = (s', Except.ok r)) :
    s' = (identifyBody req s).1 ∧ r = (identifyBody req s).2 := by
  unfold identify at h
  by_cases hc : (req.email.isNone && req.phoneNumber.isNone) = true
  · rw [if_pos hc] at h
    have h2 := congrArg Prod.snd h
    exact Except.noConfusion h2
  · rw [if_neg hc] at h
    have h1 : (transaction s (fun t => Except.ok (identifyBody req t))).1 = s' :=
      congrArg Prod.fst h
    have h2 : (transaction s (fun t => Except.ok (identifyBody req t))).2 = Except.ok r :=
      congrArg Prod.snd h
    constructor
    · rw [← h1]; rfl
    · have h3 : Except.ok (identifyBody req s).2 = Except.ok r := h2
      exact (Except.ok.inj h3).symm

lemma identifyBody_resp_assemble (req : IdentifyRequest) (s : Store) :
    (identifyBody req s).2
      = assembleResponse (identifyBody req s).1 (identifyBody req s).2.primaryContactId := by
  cases hcands : loadCandidates s req.email req.phoneNumber with
  | nil =>
    rw [identifyBody_nil hcands]
    rfl
  | cons u rest =>
    rw [identifyBody_cons hcands]
    rfl

lemma mem_decideStore {s1 : Store} {uid : Nat} {e p : Option String} {c : Contact}
    (hc : c ∈ s1.contacts) : c ∈ (decideStore s1 uid e p).contacts := by
  rw [decideStore_eq]
  split
  · rw [createContact_contacts]
    exact List.mem_append.mpr (Or.inl hc)
  · exact hc

/-- The row carrying the returned `primaryContactId` is a live primary of the
final store. -/
lemma identifyBody_primary_record {s : Store} (hInv : StoreInv s) (req : IdentifyRequest) :
    ∃ w ∈ (identifyBody req s).1.contacts, isLive w = true ∧ w.linkPrecedence = .primary ∧
      w.id = (identifyBody req s).2.primaryContactId := by
  cases hcands : loadCandidates s req.email req.phoneNumber with
  | nil =>
    rw [identifyBody_nil hcands]
    refine ⟨⟨s.nextId, req.phoneNumber, req.email, none, .primary, s.now, none⟩, ?_, rfl, rfl, rfl⟩
    rw [createContact_contacts]
    exact List.mem_append.mpr (Or.inr (List.mem_singleton.mpr rfl))
  | cons u rest =>
    rw [identifyBody_cons hcands]
    have hu := candidate_mem u (by rw [hcands]; exact List.mem_cons_self _ _)
    have hund := loadCandidates_ids_nodup s req.email req.phoneNumber
    rw [hcands, List.map_cons, List.nodup_cons] at hund
    have hudem : u.id ∉ rest.map (fun c => c.id) := hund.1
    have humerge : mergeRow u.id (rest.map (fun c => c.id)) u = u := by
      have h1 : (rest.map (fun c => c.id)).contains u.id = false := not_contains_of_not_mem hudem
      have h2 : pointsAtDemoted (rest.map (fun c => c.id)) u = false := by
        unfold pointsAtDemoted
        rw [hInv.primNoLink u hu.1 hu.2.1 hu.2.2]
      exact mergeRow_of_other h1 (by rw [h2, Bool.and_false])
    refine ⟨u, ?_, hu.2.1, hu.2.2, rfl⟩
    refine mem_decideStore ?_
    rw [mergeStore_contacts hInv.nodupIds hudem]
    exact List.mem_map.mpr ⟨u, hu.1, humerge⟩

/-! ### Concrete stores: invariants and separators -/

lemma not_reach_of_separator {ns : List Node} (f : Node → Bool)
    (h : ∀ x ∈ ns, ∀ y ∈ ns, sharesIdentifier x y = true → f x = f y)
    {a b : Node} (hfa : f a = true) (hfb : f b = false) : ¬ reach ns a b :=
  fun hr => Bool.noConfusion (hfa.symm.trans ((reach_constant f h hr).trans hfb))

lemma storeInv_emptyStore : StoreInv emptyStore := by
  refine ⟨?_, ?_, ?_, ?_, ?_, ?_, ?_⟩ <;> simp [emptyStore]

lemma storeInv_mergeTieStore : StoreInv mergeTieStore := by
  have hsep : ∀ x ∈ nodesOf mergeTieStore, ∀ y ∈ nodesOf mergeTieStore,
      sharesIdentifier x y = true →
      (fun nd : Node => decide (nd.id ≤ 2)) x = (fun nd : Node => decide (nd.id ≤ 2)) y := by
    decide
  have h13 : ¬ reach (nodesOf mergeTieStore)
      (Contact.node ⟨1, none, some "a", none, .primary, 0, none⟩)
      (Contact.node ⟨3, some "q", some "b", none, .primary, 0, none⟩) :=
    not_reach_of_separator _ hsep (by decide) (by decide)
  have h23 : ¬ reach (nodesOf mergeTieStore)
      (Contact.node ⟨2, some "p", some "a", some 1, .secondary, 1, none⟩)
      (Contact.node ⟨3, some "q", some "b", none, .primary, 0, none⟩) :=
    not_reach_of_separator _ hsep (by decide) (by decide)
  have h12 : identStep (nodesOf mergeTieStore)
      (Contact.node ⟨1, none, some "a", none, .primary, 0, none⟩)
      (Contact.node ⟨2, some "p", some "a", some 1, .secondary, 1, none⟩) :=
    ⟨by decide, by decide, by decide⟩
  refine ⟨by decide, by decide, by decide, by decide, by decide, ?_, by decide⟩
  intro a ha b hb hla hlb
  simp only [mergeTieStore, List.mem_cons, List.not_mem_nil, or_false] at ha hb
  rcases ha with rfl | rfl | rfl <;> rcases hb with rfl | rfl | rfl
  · exact ⟨fun _ => rfl, fun _ => Relation.ReflTransGen.refl⟩
  · exact ⟨fun _ => rfl, fun _ => Relation.ReflTransGen.single h12⟩
  · exact ⟨fun hr => absurd hr h13, fun hcan => absurd hcan (by decide)⟩
  · exact ⟨fun _ => rfl, fun _ => Relation.ReflTransGen.single (identStep_symm h12)⟩
  · exact ⟨fun _ => rfl, fun _ => Relation.ReflTransGen.refl⟩
  · exact ⟨fun hr => absurd hr h23, fun hcan => absurd hcan (by decide)⟩
  · exact ⟨fun hr => absurd (reach_symm hr) h13, fun hcan => absurd hcan (by decide)⟩
  · exact ⟨fun hr => absurd (reach_symm hr) h23, fun hcan => absurd hcan (by decide)⟩
  · exact ⟨fun _ => rfl, fun _ => Relation.ReflTransGen.refl⟩

lemma storeInv_coveredPairStore : StoreInv coveredPairStore := by
  have h12 : identStep (nodesOf coveredPairStore)
      (Contact.node ⟨1, some "1", some "a", none, .primary, 0, none⟩)
      (Contact.node ⟨2, some "2", some "a", some 1, .secondary, 1, none⟩) :=
    ⟨by decide, by decide, by decide⟩
  have h23 : identStep (nodesOf coveredPairStore)
      (Contact.node ⟨2, some "2", some "a", some 1, .secondary, 1, none⟩)
      (Contact.node ⟨3, some "2", some "b", some 1, .secondary, 2, none⟩) :=
    ⟨by decide, by decide, by decide⟩
  have hr12 := Relation.ReflTransGen.single h12
  have hr23 := Relation.ReflTransGen.single h23
  have hr13 := hr12.trans hr23
  refine ⟨by decide, by decide, by decide, by decide, by decide, ?_, by decide⟩
  intro a ha b hb hla hlb
  simp only [coveredPairStore, List.mem_cons, List.not_mem_nil, or_false] at ha hb
  rcases ha with rfl | rfl | rfl <;> rcases hb with rfl | rfl | rfl
  · exact ⟨fun _ => rfl, fun _ => Relation.ReflTransGen.refl⟩
  · exact ⟨fun _ => rfl, fun _ => hr12⟩
  · exact ⟨fun _ => rfl, fun _ => hr13⟩
  · exact ⟨fun _ => rfl, fun _ => reach_symm hr12⟩
  · exact ⟨fun _ => rfl, fun _ => Relation.ReflTransGen.refl⟩
  · exact ⟨fun _ => rfl, fun _ => hr23⟩
  · exact ⟨fun _ => rfl, fun _ => reach_symm hr13⟩
  · exact ⟨fun _ => rfl, fun _ => reach_symm hr23⟩
  · exact ⟨fun _ => rfl, fun _ => Relation.ReflTransGen.refl⟩

lemma storeInv_twoGroupStore : StoreInv twoGroupStore := by
  have hsep : ∀ x ∈ nodesOf twoGroupStore, ∀ y ∈ nodesOf twoGroupStore,
      sharesIdentifier x y = true →
      (fun nd : Node => decide (nd.id ≤ 1)) x = (fun nd : Node => decide (nd.id ≤ 1)) y := by
    decide
  have h12 : ¬ reach (nodesOf twoGroupStore)
      (Contact.node ⟨1, some "111", some "a@x", none, .primary, 0, none⟩)
      (Contact.node ⟨2, some "222", some "b@y", none, .primary, 1, none⟩) :=
    not_reach_of_separator _ hsep (by decide) (by decide)
  refine ⟨by decide, by decide, by decide, by decide, by decide, ?_, by decide⟩
  intro a ha b hb hla hlb
  simp only [twoGroupStore, List.mem_cons, List.not_mem_nil, or_false] at ha hb
  rcases ha with rfl | rfl <;> rcases hb with rfl | rfl
  · exact ⟨fun _ => rfl, fun _ => Relation.ReflTransGen.refl⟩
  · exact ⟨fun hr => absurd hr h12, fun hcan => absurd hcan (by decide)⟩
  · exact ⟨fun hr => absurd (reach_symm hr) h12, fun hcan => absurd hcan (by decide)⟩
  · exact ⟨fun _ => rfl, fun _ => Relation.ReflTransGen.refl⟩

/-! ### Shared helpers for the claim theorems -/

lemma mergeStore_length (s : Store) (uid : Nat) (demoted : List Nat) :
    (mergeStore s uid demoted).contacts.length = s.contacts.length := by
  rw [mergeStore_eq]
  split
  · rfl
  · split
    · rw [updateContacts_contacts, List.length_map]
    · rw [updateContacts_contacts, updateContacts_contacts, List.length_map, List.length_map]

lemma requestFieldMatches_of_eq {v w : Option String} (h : w = v) :
    requestFieldMatches v w = true := by
  cases v with
  | none => rfl
  | some x => unfold requestFieldMatches; rw [h]; simp

/-- Concrete evaluation: the tie-break counterexample run (`List.mergeSort` is
defined by well-founded recursion, so concrete runs are evaluated with `simp`
on the definitional equations rather than by kernel reduction). -/
lemma mergeTie_run_eq : runAll mergeTieStore [mergeTieRequest] = mergeTieFinal := by
  simp +decide [runAll, runIdentify, identify, transaction, identifyBody, loadCandidates,
    findContacts, sortByCreatedAt, dedupById, linkedPrimariesOf, mergeStore, updateContacts,
    decideStore, exactMatchInGroup, queryAllLinkedContacts, createContact, assembleResponse,
    sortStrings, dedupStrings, dedupNat, jsSetDedup, findByLinkedId, findById,
    applyContactUpdate, matchesIdentifiers, isLive, requestFieldMatches,
    List.mergeSort, mergeTieStore, mergeTieRequest, mergeTieFinal]

/-- Concrete evaluation: the loader's candidates for the tie-break store. -/
lemma mergeTie_candidates_eq : loadCandidates mergeTieStore (some "b") (some "p")
    = [⟨3, some "q", some "b", none, .primary, 0, none⟩,
       ⟨1, none, some "a", none, .primary, 0, none⟩] := by
  simp +decide [loadCandidates, findContacts, sortByCreatedAt, dedupById, linkedPrimariesOf,
    dedupNat, jsSetDedup, findById, matchesIdentifiers, isLive,
    List.mergeSort, mergeTieStore]

/-- Concrete evaluation: identifying against the dangling-reference store
succeeds, leaving the dangling row in place and creating a fresh primary. -/
lemma dangling_identify_eq : identify danglingRequest danglingStore =
    (⟨[⟨1, none, some "a", some 99, .secondary, 0, none⟩,
       ⟨2, none, some "a", none, .primary, 1, none⟩], 3, 2⟩,
     Except.ok ⟨2, ["a"], [], []⟩) := by
  simp +decide [identify, transaction, identifyBody, loadCandidates,
    findContacts, sortByCreatedAt, dedupById, linkedPrimariesOf, mergeStore, updateContacts,
    decideStore, exactMatchInGroup, queryAllLinkedContacts, createContact, assembleResponse,
    sortStrings, dedupStrings, dedupNat, jsSetDedup, findByLinkedId, findById,
    applyContactUpdate, matchesIdentifiers, isLive, requestFieldMatches,
    List.mergeSort, danglingStore, danglingRequest]

/-- Concrete evaluation: the cross-group merging request against
`twoGroupStore` demotes primary 2 under primary 1 and records the pair. -/
lemma twoGroup_identify_eq : identify ⟨some "a@x", some "222"⟩ twoGroupStore =
    (⟨[⟨1, some "111", some "a@x", none, .primary, 0, none⟩,
       ⟨2, some "222", some "b@y", some 1, .secondary, 1, none⟩,
       ⟨3, some "222", some "a@x", some 1, .secondary, 2, none⟩], 4, 3⟩,
     Except.ok ⟨1, ["a@x", "b@y"], ["111", "222"], [2, 3]⟩) := by
  simp +decide [identify, transaction, identifyBody, loadCandidates,
    findContacts, sortByCreatedAt, dedupById, linkedPrimariesOf, mergeStore, updateContacts,
    decideStore, exactMatchInGroup, queryAllLinkedContacts, createContact, assembleResponse,
    sortStrings, dedupStrings, dedupNat, jsSetDedup, findByLinkedId, findById,
    applyContactUpdate, matchesIdentifiers, isLive, requestFieldMatches,
    List.mergeSort, twoGroupStore]

/-- Concrete evaluation: a first identify against the empty store. -/
lemma empty_identify_eq : identify ⟨some "a@x", some "111"⟩ emptyStore =
    (⟨[⟨1, some "111", some "a@x", none, .primary, 1, none⟩], 2, 2⟩,
     Except.ok ⟨1, ["a@x"], ["111"], []⟩) := by
  simp +decide [identify, transaction, identifyBody, loadCandidates,
    findContacts, sortByCreatedAt, dedupById, linkedPrimariesOf, mergeStore, updateContacts,
    decideStore, exactMatchInGroup, queryAllLinkedContacts, createContact, assembleResponse,
    sortStrings, dedupStrings, dedupNat, jsSetDedup, findByLinkedId, findById,
    applyContactUpdate, matchesIdentifiers, isLive, requestFieldMatches,
    List.mergeSort, emptyStore]

/-- Concrete evaluation: the spec-covered pair still triggers a creation. -/
lemma coveredPair_len_eq : (identifyBody coveredPairRequest coveredPairStore).1.contacts.length
    = coveredPairStore.contacts.length + 1 := by
  simp +decide [identifyBody, loadCandidates,
    findContacts, sortByCreatedAt, dedupById, linkedPrimariesOf, mergeStore, updateContacts,
    decideStore, exactMatchInGroup, queryAllLinkedContacts, createContact, assembleResponse,
    sortStrings, dedupStrings, dedupNat, jsSetDedup, findByLinkedId, findById,
    applyContactUpdate, matchesIdentifiers, isLive, requestFieldMatches,
    List.mergeSort, coveredPairStore, coveredPairRequest]

/-- Concrete evaluation: the submitted pair of `coveredPairRequest` is
represented across the group of primary 1 in the specification's sense. -/
lemma coveredPair_spec_represented :
    specRepresentedPair coveredPairRequest.email coveredPairRequest.phoneNumber
      (queryAllLinkedContacts coveredPairStore 1) := by
  simp +decide [specRepresentedPair, queryAllLinkedContacts, sortByCreatedAt, isLive,
    List.mergeSort, coveredPairStore, coveredPairRequest]

/-! ### The claims -/

/-- C6: if the unit of work handed to `transaction` fails, the call returns
the error and the pre-transaction store unchanged; correspondingly, whenever
`identify` reports an error its resulting store is the input store — no
partial merge survives. -/
theorem c6_transaction_rollback :
    (∀ (α : Type) (s : Store) (work : Store → Except IdentifyError (Store × α))
        (e : IdentifyError),
      work s = Except.error e → transaction s work = (s, Except.error e)) ∧
    (∀ (req : IdentifyRequest) (s : Store) (e : IdentifyError),
      (identify req s).2 = Except.error e → (identify req s).1 = s) := by
  constructor
  · intro α s work e h
    unfold transaction
    rw [h]
  · intro req s e h
    unfold identify at h ⊢
    by_cases hc : (req.email.isNone && req.phoneNumber.isNone) = true
    · rw [if_pos hc]
    · rw [if_neg hc] at h
      unfold transaction at h
      cases h

/-- Witness for C6 at a concrete failing unit of work and a concrete
validation failure. -/
theorem c6_witness :
    transaction emptyStore
        (fun _ => (Except.error IdentifyError.validation : Except IdentifyError (Store × Unit)))
      = (emptyStore, Except.error IdentifyError.validation) ∧
    (identify ⟨none, none⟩ emptyStore).1 = emptyStore :=
  ⟨c6_transaction_rollback.1 Unit emptyStore _ IdentifyError.validation rfl,
   c6_transaction_rollback.2 ⟨none, none⟩ emptyStore IdentifyError.validation rfl⟩

/-- C8 counterexample: a request with neither identifier reaches the handler
and is surfaced as HTTP 500, which is a server error, not the client error the
specification promises. -/
theorem c8_counterexample :
    handler (some ⟨none, none⟩) emptyStore = ⟨500, emptyStore, none⟩ ∧
    ¬ isClientError 500 :=
  ⟨rfl, fun h => absurd h.2 (by decide)⟩

/-- C8 amended: with both identifiers absent, `identify` fails with the
validation error before any store access (the store it returns is the input,
untouched), and the handler surfaces the failure as HTTP 500 — a server
error — with the store unchanged. -/
theorem c8_validation_first : ∀ (s : Store) (req : IdentifyRequest),
    req.email = none → req.phoneNumber = none →
    identify req s = (s, Except.error IdentifyError.validation) ∧
    (handler (some req) s).store = s ∧
    (handler (some req) s).statusCode = 500 := by
  intro s req he hp
  have hiv := @identify_eq_error req s he hp
  refine ⟨hiv, ?_, ?_⟩ <;> simp [handler, hiv]

/-- Witness for C8 at the empty request against the empty store. -/
theorem c8_witness :
    identify ⟨none, none⟩ emptyStore = (emptyStore, Except.error IdentifyError.validation) ∧
    (handler (some ⟨none, none⟩) emptyStore).store = emptyStore ∧
    (handler (some ⟨none, none⟩) emptyStore).statusCode = 500 :=
  c8_validation_first emptyStore ⟨none, none⟩ rfl rfl

/-- C7 counterexample: `danglingStore` holds a live matched secondary whose
`linkedId` (99) resolves to no record at all, yet `identify` succeeds — it
silently skips the dangling reference, creates a fresh primary and leaves the
inconsistent row in place, instead of aborting with a server error. -/
theorem c7_counterexample :
    (∃ m ∈ danglingStore.contacts, isLive m = true ∧
        matchesIdentifiers danglingRequest.email danglingRequest.phoneNumber m = true ∧
        m.linkPrecedence = .secondary ∧
        ∀ q ∈ danglingStore.contacts, m.linkedId ≠ some q.id) ∧
    (identify danglingRequest danglingStore).2 = Except.ok ⟨2, ["a"], [], []⟩ ∧
    (∃ c ∈ (identify danglingRequest danglingStore).1.contacts,
        c.linkedId = some 99 ∧ isLive c = true) := by
  refine ⟨⟨⟨1, none, some "a", some 99, .secondary, 0, none⟩, by decide, rfl, rfl, rfl, by decide⟩,
    ?_, ?_⟩
  · rw [dangling_identify_eq]
  · rw [dangling_identify_eq]
    exact ⟨⟨1, none, some "a", some 99, .secondary, 0, none⟩, by decide, rfl, rfl⟩

/-- C7 amended: a dangling canonical reference is never fatal — whenever at
least one identifier is present, `identify` succeeds regardless of any
unresolvable id `i`, and an id with no live record simply contributes no
candidate (the loader skips it silently). -/
theorem c7_dangling_skipped : ∀ (req : IdentifyRequest) (s : Store) (i : Nat),
    (req.email.isSome = true ∨ req.phoneNumber.isSome = true) →
    findById s i = none →
    (identify req s).2 = Except.ok (identifyBody req s).2 ∧
    ∀ c ∈ loadCandidates s req.email req.phoneNumber, c.id ≠ i := by
  intro req s i hsome hdang
  constructor
  · rw [identify_eq_ok hsome]
  · intro c hc hci
    rcases candidate_mem c hc with ⟨hcm, hcl, _⟩
    unfold findById at hdang
    have hfil : s.contacts.filter (fun x => x.id == i && isLive x) = [] :=
      List.head?_eq_none_iff.mp hdang
    have hmemf : c ∈ s.contacts.filter (fun x => x.id == i && isLive x) :=
      List.mem_filter.mpr ⟨hcm, by rw [hci, hcl]; simp⟩
    rw [hfil] at hmemf
    cases hmemf

/-- Witness for C7 at the dangling store: id 99 resolves to nothing, the call
still succeeds and no candidate carries id 99. -/
theorem c7_witness :
    (identify danglingRequest danglingStore).2
      = Except.ok (identifyBody danglingRequest danglingStore).2 ∧
    ∀ c ∈ loadCandidates danglingStore danglingRequest.email danglingRequest.phoneNumber,
      c.id ≠ 99 :=
  c7_dangling_skipped danglingRequest danglingStore 99 (Or.inl rfl) rfl

/-- C4: starting from any store satisfying the data-model invariants, after
any sequence of identify operations every live secondary's `linkedId` points
in exactly one hop at a live record with primary role. -/
theorem c4_flat_links : ∀ (s0 : Store) (reqs : List IdentifyRequest),
    StoreInv s0 → FlatLinks (runAll s0 reqs) :=
  fun _ reqs h => flatLinks_of_storeInv (storeInv_runAll h reqs)

/-- Witness for C4: flatness after a two-request run from the empty store. -/
theorem c4_witness :
    FlatLinks (runAll emptyStore [⟨some "a@x", some "111"⟩, ⟨some "b@y", some "111"⟩]) :=
  c4_flat_links emptyStore [⟨some "a@x", some "111"⟩, ⟨some "b@y", some "111"⟩]
    storeInv_emptyStore

/-- C3 counterexample: `mergeTieStore` satisfies the invariants and its two
primaries (ids 1 and 3) tie on `createdAt = 0`; after the merging request the
surviving canonical of the joined group is id 3, not the lowest id 1 — the
code implements no id tie-break. -/
theorem c3_counterexample :
    StoreInv mergeTieStore ∧
    runAll mergeTieStore [mergeTieRequest] = mergeTieFinal ∧
    ¬ CanonicalMinTie mergeTieFinal := by
  refine ⟨storeInv_mergeTieStore, mergeTie_run_eq, ?_⟩
  intro h
  have hs1 : identStep (nodesOf mergeTieFinal)
      (Contact.node ⟨1, none, some "a", some 3, .secondary, 0, none⟩)
      (Contact.node ⟨2, some "p", some "a", some 3, .secondary, 1, none⟩) :=
    ⟨by decide, by decide, by decide⟩
  have hs2 : identStep (nodesOf mergeTieFinal)
      (Contact.node ⟨2, some "p", some "a", some 3, .secondary, 1, none⟩)
      (Contact.node ⟨4, some "p", some "b", some 3, .secondary, 2, none⟩) :=
    ⟨by decide, by decide, by decide⟩
  have hs3 : identStep (nodesOf mergeTieFinal)
      (Contact.node ⟨4, some "p", some "b", some 3, .secondary, 2, none⟩)
      (Contact.node ⟨3, some "q", some "b", none, .primary, 0, none⟩) :=
    ⟨by decide, by decide, by decide⟩
  have hr : reach (nodesOf mergeTieFinal)
      (Contact.node ⟨1, none, some "a", some 3, .secondary, 0, none⟩)
      (Contact.node ⟨3, some "q", some "b", none, .primary, 0, none⟩) :=
    Relation.ReflTransGen.head hs1 (Relation.ReflTransGen.head hs2
      (Relation.ReflTransGen.single hs3))
  have hmin := h ⟨1, none, some "a", some 3, .secondary, 0, none⟩ (by decide)
    ⟨3, some "q", some "b", none, .primary, 0, none⟩ (by decide) (by decide) (by decide)
    (by decide) hr
  rcases hmin with h1 | ⟨_, h2⟩
  · exact absurd h1 (by decide)
  · exact absurd h2 (by decide)

/-- C3 amended: starting from any store satisfying the data-model invariants,
after any sequence of identify operations every connected group has exactly
one live canonical, and it has the earliest `createdAt` among the group's live
rows — but without the "ties broken by lowest id" refinement, which the code
does not implement. -/
theorem c3_unique_oldest_canonical : ∀ (s0 : Store) (reqs : List IdentifyRequest),
    StoreInv s0 →
    UniqueCanonical (runAll s0 reqs) ∧ CanonicalOldest (runAll s0 reqs) := by
  intro s0 reqs hInv
  have h := storeInv_runAll hInv reqs
  exact ⟨uniqueCanonical_of_storeInv h, canonicalOldest_of_storeInv h⟩

/-- Witness for C3's amended statement after one request from the empty
store. -/
theorem c3_witness :
    UniqueCanonical (runAll emptyStore [⟨some "a@x", some "111"⟩]) ∧
    CanonicalOldest (runAll emptyStore [⟨some "a@x", some "111"⟩]) :=
  c3_unique_oldest_canonical emptyStore [⟨some "a@x", some "111"⟩] storeInv_emptyStore

/-- C5 counterexample: against `mergeTieStore` the loader returns candidates
with ids `[3, 1]` although both tie on `createdAt = 0` — the promised
ascending-id tie-break would require `[1, 3]`, so the claimed ordering
predicate fails on the loader's output. -/
theorem c5_counterexample :
    StoreInv mergeTieStore ∧
    (loadCandidates mergeTieStore (some "b") (some "p")).map Contact.id = [3, 1] ∧
    ¬ List.Pairwise
        (fun a b : Contact => a.createdAt < b.createdAt ∨
          (a.createdAt = b.createdAt ∧ a.id ≤ b.id))
        (loadCandidates mergeTieStore (some "b") (some "p")) := by
  refine ⟨storeInv_mergeTieStore, ?_, ?_⟩
  · rw [mergeTie_candidates_eq]
    decide
  · rw [mergeTie_candidates_eq]
    decide

/-- C5 amended: when the store's ids are distinct the loader's candidate set
contains the canonical claimed by every directly matched live row (in
particular each matched subordinate's canonical ancestor), carries no
duplicate id, and is ordered ascending by `createdAt` — ties left in
load order, not broken by id. -/
theorem c5_loader_properties : ∀ (s : Store) (e p : Option String),
    (s.contacts.map Contact.id).Nodup →
    ((∀ m ∈ s.contacts, isLive m = true → matchesIdentifiers e p m = true →
        ∀ q ∈ s.contacts, isLive q = true → q.linkPrecedence = .primary →
          canonicalIdOf m = some q.id → q ∈ loadCandidates s e p) ∧
     ((loadCandidates s e p).map Contact.id).Nodup ∧
     List.Pairwise (fun a b : Contact => a.createdAt ≤ b.createdAt) (loadCandidates s e p)) := by
  intro s e p hnd
  exact ⟨fun m hm hml hmm q hq hql hqp hcan => candidate_complete hnd hm hml hmm hq hql hqp hcan,
    loadCandidates_ids_nodup s e p, loadCandidates_sorted s e p⟩

/-- Witness for C5: the matched subordinate (id 2) of `mergeTieStore` puts its
canonical ancestor (id 1) among the candidates, and the ids are distinct. -/
theorem c5_witness :
    (⟨1, none, some "a", none, .primary, 0, none⟩ : Contact)
        ∈ loadCandidates mergeTieStore (some "b") (some "p") ∧
    ((loadCandidates mergeTieStore (some "b") (some "p")).map Contact.id).Nodup := by
  have h := c5_loader_properties mergeTieStore (some "b") (some "p") (by decide)
  refine ⟨?_, h.2.1⟩
  exact h.1 ⟨2, some "p", some "a", some 1, .secondary, 1, none⟩ (by decide) rfl rfl
    ⟨1, none, some "a", none, .primary, 0, none⟩ (by decide) rfl rfl rfl

lemma decideStore_of_exactMatch {s1 : Store} {uid : Nat} {e p : Option String}
    (h : exactMatchInGroup e p (queryAllLinkedContacts s1 uid) = true) :
    decideStore s1 uid e p = s1 := by
  rw [decideStore_eq, h]
  rfl

lemma decideStore_of_no_match {s1 : Store} {uid : Nat} {e p : Option String}
    (h : exactMatchInGroup e p (queryAllLinkedContacts s1 uid) = false)
    (h2 : (e.isSome || p.isSome) = true) :
    decideStore s1 uid e p = (createContact s1 ⟨e, p, some uid, .secondary⟩).1 := by
  rw [decideStore_eq, h, Bool.not_false, Bool.true_and, h2]
  rfl

/-- C2 counterexample: the group of `coveredPairStore` satisfies the spec's
per-field coverage for the submitted pair (email "b" on row 3, phone "1" on
row 1 — two different records), yet the code's single-record check fails and
`identify` creates a new row. -/
theorem c2_counterexample :
    StoreInv coveredPairStore ∧
    loadCandidates coveredPairStore coveredPairRequest.email coveredPairRequest.phoneNumber
      = [⟨1, some "1", some "a", none, .primary, 0, none⟩] ∧
    specRepresentedPair coveredPairRequest.email coveredPairRequest.phoneNumber
      (queryAllLinkedContacts coveredPairStore 1) ∧
    (identifyBody coveredPairRequest coveredPairStore).1.contacts.length
      = coveredPairStore.contacts.length + 1 := by
  refine ⟨storeInv_coveredPairStore, ?_, coveredPair_spec_represented, coveredPair_len_eq⟩
  simp +decide [loadCandidates, findContacts, sortByCreatedAt, dedupById, linkedPrimariesOf,
    dedupNat, jsSetDedup, findById, matchesIdentifiers, isLive,
    List.mergeSort, coveredPairStore, coveredPairRequest]

/-- C2 amended: with a non-empty candidate set a new record is created exactly
when no *single* record of the reconciled group carries both request fields
(the code's check, not the spec's per-field coverage); and resubmitting an
exact existing (email, phone) pair — both fields present on one live row —
creates nothing and leaves the store untouched. -/
theorem c2_duplicate_check :
    (∀ (req : IdentifyRequest) (s : Store) (u : Contact) (rest : List Contact),
      loadCandidates s req.email req.phoneNumber = u :: rest →
      (identifyBody req s).1.contacts.length
        = (if exactMatchInGroup req.email req.phoneNumber
              (queryAllLinkedContacts (mergeStore s u.id (rest.map (fun c => c.id))) u.id) = true
           then s.contacts.length else s.contacts.length + 1)) ∧
    (∀ (req : IdentifyRequest) (s : Store) (r0 : Contact), StoreInv s →
      r0 ∈ s.contacts → isLive r0 = true → r0.email = req.email →
      r0.phoneNumber = req.phoneNumber → req.email.isSome = true →
      req.phoneNumber.isSome = true → (identifyBody req s).1 = s) := by
  constructor
  · intro req s u rest hcands
    have hbody := identifyBody_cons hcands
    have hs1 : (identifyBody req s).1
        = decideStore (mergeStore s u.id (rest.map (fun c => c.id))) u.id
            req.email req.phoneNumber := by
      rw [hbody]
    have hsome : (req.email.isSome || req.phoneNumber.isSome) = true := by
      rcases candidate_origin u (by rw [hcands]; exact List.mem_cons_self _ _)
        with ⟨m, _, _, hmm, _⟩
      rcases matchesIdentifiers_iff.mp hmm with ⟨ev, he, _⟩ | ⟨pv, hp, _⟩
      · rw [he]; rfl
      · rw [hp]; cases req.email <;> rfl
    rw [hs1]
    by_cases hEM : exactMatchInGroup req.email req.phoneNumber
        (queryAllLinkedContacts (mergeStore s u.id (rest.map (fun c => c.id))) u.id) = true
    · rw [decideStore_of_exactMatch hEM, if_pos hEM, mergeStore_length]
    · have hEMf := bool_eq_false_of_not hEM
      rw [decideStore_of_no_match hEMf hsome, if_neg hEM, createContact_contacts,
        List.length_append, mergeStore_length]
      rfl
  · intro req s r0 hInv hr0 hl0 he0 hp0 hesome hpsome
    obtain ⟨ev, hev⟩ := Option.isSome_iff_exists.mp hesome
    have hm : matchesIdentifiers req.email req.phoneNumber r0 = true :=
      matchesIdentifiers_iff.mpr (Or.inl ⟨ev, hev, by rw [he0, hev]⟩)
    rcases canonicalRecord hInv hr0 hl0 with ⟨q, hq, hql, hqp, hcan⟩
    have hqin : q ∈ loadCandidates s req.email req.phoneNumber :=
      candidate_complete hInv.nodupIds hr0 hl0 hm hq hql hqp hcan
    have hall : ∀ c ∈ loadCandidates s req.email req.phoneNumber, c = q := by
      intro c hc
      rcases candidate_origin c hc with ⟨m, hmmem, hml, hmm, hmcan⟩
      have hr0e : requestFieldMatches req.email r0.email = true := requestFieldMatches_of_eq he0
      have hr0p : requestFieldMatches req.phoneNumber r0.phoneNumber = true :=
        requestFieldMatches_of_eq hp0
      have hsh := shares_of_matched_pair hr0e hr0p hmm
      have hceq := canon_eq_of_shares hInv hr0 hl0 hmmem hml hsh
      rw [hcan, hmcan] at hceq
      exact id_inj hInv.nodupIds (candidate_mem c hc).1 hq (Option.some.inj hceq).symm
    cases hcands : loadCandidates s req.email req.phoneNumber with
    | nil => rw [hcands] at hqin; cases hqin
    | cons u rest =>
      have hu : u = q := hall u (by rw [hcands]; exact List.mem_cons_self _ _)
      rw [hu] at hcands
      have hrest : rest = [] := by
        have hnd := loadCandidates_ids_nodup s req.email req.phoneNumber
        rw [hcands, List.map_cons, List.nodup_cons] at hnd
        cases rest with
        | nil => rfl
        | cons x t =>
          exfalso
          have hx : x = q := hall x
            (by rw [hcands]; exact List.mem_cons_of_mem _ (List.mem_cons_self _ _))
          apply hnd.1
          rw [List.map_cons, hx]
          exact List.mem_cons_self _ _
      rw [hrest] at hcands
      have hEM : exactMatchInGroup req.email req.phoneNumber
          (queryAllLinkedContacts s q.id) = true := by
        unfold exactMatchInGroup
        refine List.any_eq_true.mpr ⟨r0, ?_, ?_⟩
        · refine mem_queryAllLinkedContacts.mpr ⟨hr0, ?_, hl0⟩
          cases hrp : r0.linkPrecedence with
          | primary =>
            left
            have h1 := canonicalIdOf_primary hrp
            rw [h1] at hcan
            exact Option.some.inj hcan
          | secondary =>
            right
            rw [← canonicalIdOf_secondary hrp]
            exact hcan
        · rw [Bool.and_eq_true]
          exact ⟨requestFieldMatches_of_eq he0, requestFieldMatches_of_eq hp0⟩
      have hbody := identifyBody_cons hcands
      have h1 : (identifyBody req s).1
          = decideStore s q.id req.email req.phoneNumber := by
        rw [hbody]
        rfl
      rw [h1, decideStore_of_exactMatch hEM]

/-- Witness for C2: for the covered-pair store the creation condition is the
single-record check, and resubmitting row 1's exact pair changes nothing. -/
theorem c2_witness :
    (identifyBody (⟨some "b", some "1"⟩ : IdentifyRequest) coveredPairStore).1.contacts.length
      = (if exactMatchInGroup (some "b") (some "1")
            (queryAllLinkedContacts
              (mergeStore coveredPairStore 1
                (List.map (fun c => c.id) ([] : List Contact))) 1) = true
         then coveredPairStore.contacts.length else coveredPairStore.contacts.length + 1) ∧
    (identifyBody (⟨some "a", some "1"⟩ : IdentifyRequest) coveredPairStore).1
      = coveredPairStore := by
  constructor
  · refine c2_duplicate_check.1 ⟨some "b", some "1"⟩ coveredPairStore
      ⟨1, some "1", some "a", none, .primary, 0, none⟩ [] ?_
    simp +decide [loadCandidates, findContacts, sortByCreatedAt, dedupById, linkedPrimariesOf,
      dedupNat, jsSetDedup, findById, matchesIdentifiers, isLive,
      List.mergeSort, coveredPairStore]
  · exact c2_duplicate_check.2 ⟨some "a", some "1"⟩ coveredPairStore
      ⟨1, some "1", some "a", none, .primary, 0, none⟩ storeInv_coveredPairStore
      (by decide) rfl rfl rfl rfl rfl

/-- C10: every successful response has its emails and phone numbers sorted
ascending by the default lexicographic string order (`Array.sort()` with no
comparator, modelled by the ambient `String` order). -/
theorem c10_sorted_values : ∀ (s s2 : Store) (req : IdentifyRequest) (r : IdentifyResponse),
    identify req s = (s2, Except.ok r) →
    List.Pairwise (fun a b : String => a ≤ b) r.emails ∧
    List.Pairwise (fun a b : String => a ≤ b) r.phoneNumbers := by
  intro s s2 req r hid
  rcases identify_ok_inv hid with ⟨_, hr⟩
  subst hr
  have hasm := identifyBody_resp_assemble req s
  have he := congrArg IdentifyResponse.emails hasm
  rw [assembleResponse_emails] at he
  have hp := congrArg IdentifyResponse.phoneNumbers hasm
  rw [assembleResponse_phoneNumbers] at hp
  rw [he, hp]
  exact ⟨sortStrings_sorted _, sortStrings_sorted _⟩

/-- Witness for C10 on the concrete cross-group merge. -/
theorem c10_witness :
    List.Pairwise (fun a b : String => a ≤ b)
      (⟨1, ["a@x", "b@y"], ["111", "222"], [2, 3]⟩ : IdentifyResponse).emails ∧
    List.Pairwise (fun a b : String => a ≤ b)
      (⟨1, ["a@x", "b@y"], ["111", "222"], [2, 3]⟩ : IdentifyResponse).phoneNumbers :=
  c10_sorted_values twoGroupStore
    ⟨[⟨1, some "111", some "a@x", none, .primary, 0, none⟩,
      ⟨2, some "222", some "b@y", some 1, .secondary, 1, none⟩,
      ⟨3, some "222", some "a@x", some 1, .secondary, 2, none⟩], 4, 3⟩
    ⟨some "a@x", some "222"⟩ ⟨1, ["a@x", "b@y"], ["111", "222"], [2, 3]⟩
    twoGroup_identify_eq

/-- C9: in every successful response, emails and phoneNumbers hold exactly the
non-absent values of the final group of the returned primary, each once;
secondaryContactIds are exactly the ids of the group's live secondaries, in
ascending numeric order; and the returned primary id belongs to a live primary
row of the final store. -/
theorem c9_response_contents : ∀ (s s2 : Store) (req : IdentifyRequest) (r : IdentifyResponse),
    StoreInv s → identify req s = (s2, Except.ok r) →
    ((∀ x : String, x ∈ r.emails ↔
        ∃ c ∈ queryAllLinkedContacts s2 r.primaryContactId, c.email = some x) ∧
     r.emails.Nodup ∧
     (∀ x : String, x ∈ r.phoneNumbers ↔
        ∃ c ∈ queryAllLinkedContacts s2 r.primaryContactId, c.phoneNumber = some x) ∧
     r.phoneNumbers.Nodup ∧
     (∀ i : Nat, i ∈ r.secondaryContactIds ↔
        ∃ c ∈ queryAllLinkedContacts s2 r.primaryContactId,
          c.id = i ∧ c.linkPrecedence = .secondary) ∧
     List.Pairwise (fun a b : Nat => a ≤ b) r.secondaryContactIds ∧
     (∃ w ∈ s2.contacts, isLive w = true ∧ w.linkPrecedence = .primary ∧
        w.id = r.primaryContactId)) := by
  intro s s2 req r hInv hid
  rcases identify_ok_inv hid with ⟨hs2, hr⟩
  subst hs2
  subst hr
  have hasm := identifyBody_resp_assemble req s
  have hInv2 := storeInv_identifyBody hInv req
  obtain ⟨w, hw, hwl, hwp, hwid⟩ := identifyBody_primary_record hInv req
  have he := congrArg IdentifyResponse.emails hasm
  rw [assembleResponse_emails] at he
  have hph := congrArg IdentifyResponse.phoneNumbers hasm
  rw [assembleResponse_phoneNumbers] at hph
  have hsc := congrArg IdentifyResponse.secondaryContactIds hasm
  rw [assembleResponse_secondaryIds] at hsc
  refine ⟨?_, ?_, ?_, ?_, ?_, ?_, ⟨w, hw, hwl, hwp, hwid⟩⟩
  · intro x
    rw [he, mem_sortStrings, mem_dedupStrings]
    simp only [List.mem_filterMap]
  · rw [he]
    exact sortStrings_nodup (nodup_dedupStrings _)
  · intro x
    rw [hph, mem_sortStrings, mem_dedupStrings]
    simp only [List.mem_filterMap]
  · rw [hph]
    exact sortStrings_nodup (nodup_dedupStrings _)
  · intro i
    rw [hsc, mem_sortNatIds]
    constructor
    · intro hi
      rcases List.mem_map.mp hi with ⟨c, hcf, hci⟩
      rcases List.mem_filter.mp hcf with ⟨hcq, hcb⟩
      simp only [Bool.and_eq_true, beq_iff_eq] at hcb
      exact ⟨c, hcq, hci, hcb.1⟩
    · rintro ⟨c, hcq, hci, hcs⟩
      refine List.mem_map.mpr ⟨c, List.mem_filter.mpr ⟨hcq, ?_⟩, hci⟩
      simp only [Bool.and_eq_true, beq_iff_eq]
      refine ⟨hcs, ?_⟩
      rcases mem_queryAllLinkedContacts.mp hcq with ⟨hcmem, hcor, hclive⟩
      rcases hcor with hcid | hclid
      · exfalso
        have hcw : c = w := id_inj hInv2.nodupIds hcmem hw (by rw [hcid, hwid])
        rw [hcw, hwp] at hcs
        cases hcs
      · exact hclid
  · rw [hsc]
    exact sortNatIds_sorted _

/-- Witness for C9 at a first request against the empty store. -/
theorem c9_witness :
    (⟨1, ["a@x"], ["111"], []⟩ : IdentifyResponse).emails.Nodup ∧
    (∃ w ∈ (⟨[⟨1, some "111", some "a@x", none, .primary, 1, none⟩], 2, 2⟩ : Store).contacts,
      isLive w = true ∧ w.linkPrecedence = .primary ∧
      w.id = (⟨1, ["a@x"], ["111"], []⟩ : IdentifyResponse).primaryContactId) := by
  have h := c9_response_contents emptyStore
    ⟨[⟨1, some "111", some "a@x", none, .primary, 1, none⟩], 2, 2⟩
    ⟨some "a@x", some "111"⟩ ⟨1, ["a@x"], ["111"], []⟩ storeInv_emptyStore empty_identify_eq
  exact ⟨h.2.1, h.2.2.2.2.2.2⟩

/-- C1: on a store satisfying the invariants holding two groups with distinct
canonicals A (older) and B (younger), a request pairing an email of A's group
with a phone of B's group demotes B to a secondary of A, relinks every live
former subordinate of B to A, and answers with A's id as primary and B's id
and its former subordinates' ids among the secondary ids. -/
theorem c1_cross_group_merge : ∀ (s : Store) (A B aa bb : Contact) (ev pv : String)
    (s2 : Store) (r : IdentifyResponse),
    StoreInv s →
    A ∈ s.contacts → isLive A = true → A.linkPrecedence = .primary →
    B ∈ s.contacts → isLive B = true → B.linkPrecedence = .primary →
    A.createdAt < B.createdAt →
    aa ∈ s.contacts → isLive aa = true → aa.email = some ev →
    canonicalIdOf aa = some A.id →
    bb ∈ s.contacts → isLive bb = true → bb.phoneNumber = some pv →
    canonicalIdOf bb = some B.id →
    identify ⟨some ev, some pv⟩ s = (s2, Except.ok r) →
    (r.primaryContactId = A.id ∧
     (∃ B2 ∈ s2.contacts, B2.id = B.id ∧ B2.linkPrecedence = .secondary ∧
        B2.linkedId = some A.id ∧ B2.id ∈ r.secondaryContactIds) ∧
     (∀ c ∈ s.contacts, isLive c = true → c.linkedId = some B.id →
        ∃ c2 ∈ s2.contacts, c2.id = c.id ∧ c2.linkedId = some A.id ∧
          c2.linkPrecedence = .secondary ∧ c2.id ∈ r.secondaryContactIds)) := by
  intro s A B aa bb ev pv s2 r hInv hA hAl hAp hB hBl hBp hAB haa hal hae hacan
    hbb hbl hbp hbcan hid
  have hABne : A.id ≠ B.id := by
    intro h
    have hABeq : A = B := id_inj hInv.nodupIds hA hB h
    rw [hABeq] at hAB
    exact lt_irrefl _ hAB
  rcases identify_ok_inv hid with ⟨hs2, hr⟩
  have hmatch_a : matchesIdentifiers (some ev) (some pv) aa = true :=
    matchesIdentifiers_iff.mpr (Or.inl ⟨ev, rfl, hae⟩)
  have hmatch_b : matchesIdentifiers (some ev) (some pv) bb = true :=
    matchesIdentifiers_iff.mpr (Or.inr ⟨pv, rfl, hbp⟩)
  have hAin : A ∈ loadCandidates s (some ev) (some pv) :=
    candidate_complete hInv.nodupIds haa hal hmatch_a hA hAl hAp hacan
  have hBin : B ∈ loadCandidates s (some ev) (some pv) :=
    candidate_complete hInv.nodupIds hbb hbl hmatch_b hB hBl hBp hbcan
  have hallAB : ∀ c ∈ loadCandidates s (some ev) (some pv), c = A ∨ c = B := by
    intro c hc
    rcases candidate_origin c hc with ⟨m, hmmem, hml, hmm, hmcan⟩
    rcases matchesIdentifiers_iff.mp hmm with ⟨ev2, hev2, hme⟩ | ⟨pv2, hpv2, hmp⟩
    · have hev : ev2 = ev := (Option.some.inj hev2).symm
      rw [hev] at hme
      have hsh := shares_of_eq_email hme hae
      have hceq := canon_eq_of_shares hInv hmmem hml haa hal hsh
      rw [hmcan, hacan] at hceq
      exact Or.inl (id_inj hInv.nodupIds (candidate_mem c hc).1 hA (Option.some.inj hceq))
    · have hpv : pv2 = pv := (Option.some.inj hpv2).symm
      rw [hpv] at hmp
      have hsh := shares_of_eq_phone hmp hbp
      have hceq := canon_eq_of_shares hInv hmmem hml hbb hbl hsh
      rw [hmcan, hbcan] at hceq
      exact Or.inr (id_inj hInv.nodupIds (candidate_mem c hc).1 hB (Option.some.inj hceq))
  cases hcands : loadCandidates s (some ev) (some pv) with
  | nil => rw [hcands] at hAin; cases hAin
  | cons u rest =>
    have huA : u = A := by
      rcases hallAB u (by rw [hcands]; exact List.mem_cons_self _ _) with h | h
      · exact h
      · exfalso
        have h2 := loadCandidates_head_min hcands A hAin
        rw [h] at h2
        exact absurd hAB (not_lt.mpr h2)
    rw [huA] at hcands
    have hnd := loadCandidates_ids_nodup s (some ev) (some pv)
    rw [hcands, List.map_cons, List.nodup_cons] at hnd
    have hBrest : B ∈ rest := by
      have hBc : B ∈ A :: rest := by rw [← hcands]; exact hBin
      rcases List.mem_cons.mp hBc with h | h
      · exact absurd (by rw [h] : A.id = B.id) hABne
      · exact h
    have hrest : rest = [B] := by
      cases rest with
      | nil => cases hBrest
      | cons x t =>
        have hx : x = B := by
          rcases hallAB x
              (by rw [hcands]; exact List.mem_cons_of_mem _ (List.mem_cons_self _ _)) with h | h
          · exfalso
            apply hnd.1
            rw [List.map_cons, h]
            exact List.mem_cons_self _ _
          · exact h
        rw [hx]
        cases t with
        | nil => rfl
        | cons y t2 =>
          exfalso
          have hy : y = B := by
            rcases hallAB y (by
                rw [hcands]
                exact List.mem_cons_of_mem _
                  (List.mem_cons_of_mem _ (List.mem_cons_self _ _))) with h | h
            · exfalso
              apply hnd.1
              rw [List.map_cons, List.map_cons, h]
              exact List.mem_cons_of_mem _ (List.mem_cons_self _ _)
            · exact h
          have h2 := hnd.2
          rw [List.map_cons, List.map_cons, hx, hy] at h2
          rcases List.nodup_cons.mp h2 with ⟨hnotin, _⟩
          exact hnotin (List.mem_cons_self _ _)
    rw [hrest] at hcands
    have hbody := @identifyBody_cons ⟨some ev, some pv⟩ s A [B] hcands
    have hs2e : s2 = decideStore (mergeStore s A.id [B.id]) A.id (some ev) (some pv) := by
      rw [hs2, hbody]
      rfl
    have hre : r = assembleResponse
        (decideStore (mergeStore s A.id [B.id]) A.id (some ev) (some pv)) A.id := by
      rw [hr, hbody]
      rfl
    have hudem : A.id ∉ ([B.id] : List Nat) := by
      intro h
      exact hABne (List.mem_singleton.mp h)
    have hmc := mergeStore_contacts hInv.nodupIds hudem
    have hsec := congrArg IdentifyResponse.secondaryContactIds hre
    rw [assembleResponse_secondaryIds] at hsec
    have hmemSec : ∀ i : Nat, (∃ c2,
        c2 ∈ queryAllLinkedContacts
            (decideStore (mergeStore s A.id [B.id]) A.id (some ev) (some pv)) A.id ∧
        c2.linkPrecedence = .secondary ∧ c2.linkedId = some A.id ∧ c2.id = i) →
        i ∈ r.secondaryContactIds := by
      rintro i ⟨c2, hc2q, hc2s, hc2l, hc2i⟩
      rw [hsec]
      refine mem_sortNatIds.mpr (List.mem_map.mpr ⟨c2, List.mem_filter.mpr ⟨hc2q, ?_⟩, hc2i⟩)
      simp only [Bool.and_eq_true, beq_iff_eq]
      exact ⟨hc2s, hc2l⟩
    have hBdem : ([B.id] : List Nat).contains B.id = true :=
      contains_of_mem (List.mem_singleton.mpr rfl)
    have hB2row : mergeRow A.id [B.id] B
        = { B with linkPrecedence := .secondary, linkedId := some A.id } :=
      mergeRow_of_demoted hBdem
    have hB2dec : ({ B with linkPrecedence := .secondary, linkedId := some A.id } : Contact)
        ∈ (decideStore (mergeStore s A.id [B.id]) A.id (some ev) (some pv)).contacts := by
      refine mem_decideStore ?_
      rw [hmc]
      exact List.mem_map.mpr ⟨B, hB, hB2row⟩
    refine ⟨by rw [hre]; exact assembleResponse_primary _ _, ?_, ?_⟩
    · refine ⟨{ B with linkPrecedence := .secondary, linkedId := some A.id },
        ?_, rfl, rfl, rfl, ?_⟩
      · rw [hs2e]
        exact hB2dec
      · refine hmemSec B.id
          ⟨{ B with linkPrecedence := .secondary, linkedId := some A.id }, ?_, rfl, rfl, rfl⟩
        exact mem_queryAllLinkedContacts.mpr ⟨hB2dec, Or.inr rfl, hBl⟩
    · intro c hc hcl hclink
      have hcid : ([B.id] : List Nat).contains c.id = false := by
        refine not_contains_of_not_mem ?_
        intro hmem
        have h1 : c.id = B.id := List.mem_singleton.mp hmem
        have h2 : c = B := id_inj hInv.nodupIds hc hB h1
        rw [h2, hInv.primNoLink B hB hBl hBp] at hclink
        cases hclink
      have hpts : (isLive c && pointsAtDemoted [B.id] c) = true := by
        rw [hcl, Bool.true_and]
        unfold pointsAtDemoted
        rw [hclink]
        exact contains_of_mem (List.mem_singleton.mpr rfl)
      have hrow : mergeRow A.id [B.id] c = { c with linkedId := some A.id } :=
        mergeRow_of_relink hcid hpts
      have hcdec : ({ c with linkedId := some A.id } : Contact)
          ∈ (decideStore (mergeStore s A.id [B.id]) A.id (some ev) (some pv)).contacts := by
        refine mem_decideStore ?_
        rw [hmc]
        exact List.mem_map.mpr ⟨c, hc, hrow⟩
      have hcsec : c.linkPrecedence = .secondary := by
        cases hcp : c.linkPrecedence with
        | primary =>
          exfalso
          rw [hInv.primNoLink c hc hcl hcp] at hclink
          cases hclink
        | secondary => rfl
      refine ⟨{ c with linkedId := some A.id }, ?_, rfl, rfl, hcsec, ?_⟩
      · rw [hs2e]
        exact hcdec
      · refine hmemSec c.id ⟨{ c with linkedId := some A.id }, ?_, hcsec, rfl, rfl⟩
        exact mem_queryAllLinkedContacts.mpr ⟨hcdec, Or.inr rfl, hcl⟩

/-- Witness for C1 on `twoGroupStore`: the younger primary (id 2) is demoted
under the older (id 1) and reported among the secondary ids. -/
theorem c1_witness :
    (⟨1, ["a@x", "b@y"], ["111", "222"], [2, 3]⟩ : IdentifyResponse).primaryContactId = 1 ∧
    (∃ B2 ∈ (⟨[⟨1, some "111", some "a@x", none, .primary, 0, none⟩,
               ⟨2, some "222", some "b@y", some 1, .secondary, 1, none⟩,
               ⟨3, some "222", some "a@x", some 1, .secondary, 2, none⟩], 4, 3⟩ : Store).contacts,
      B2.id = 2 ∧ B2.linkPrecedence = .secondary ∧ B2.linkedId = some 1 ∧
      B2.id ∈ (⟨1, ["a@x", "b@y"], ["111", "222"], [2, 3]⟩ : IdentifyResponse).secondaryContactIds) := by
  have h := c1_cross_group_merge twoGroupStore
    ⟨1, some "111", some "a@x", none, .primary, 0, none⟩
    ⟨2, some "222", some "b@y", none, .primary, 1, none⟩
    ⟨1, some "111", some "a@x", none, .primary, 0, none⟩
    ⟨2, some "222", some "b@y", none, .primary, 1, none⟩
    "a@x" "222"
    ⟨[⟨1, some "111", some "a@x", none, .primary, 0, none⟩,
      ⟨2, some "222", some "b@y", some 1, .secondary, 1, none⟩,
      ⟨3, some "222", some "a@x", some 1, .secondary, 2, none⟩], 4, 3⟩
    ⟨1, ["a@x", "b@y"], ["111", "222"], [2, 3]⟩
    storeInv_twoGroupStore
    (by decide) rfl rfl (by decide) rfl rfl (by decide)
    (by decide) rfl rfl rfl
    (by decide) rfl rfl rfl
    twoGroup_identify_eq
  exact ⟨h.1, h.2.1⟩
